import Mathlib

/-!
Verification development for the markdown formatting engine of the
MarkdownEditorAI repository.  The engine lives in
`frontend/src/App.tsx` (`handleFormat`, `detectActiveStyles`) and the
selection clamp in the CodeMirror editor component (`setSelection`).
Buffers are JS strings indexed by code units; we model them as
`List Char` with `Nat` offsets.  Selections committed back to the
editor are computed with JS number arithmetic, modelled as `Int`.
-/

set_option maxHeartbeats 1000000

/-- JS whitespace class `\s` restricted to the code points the engine
manipulates (space, tab, CR, LF, vertical tab, form feed, NBSP). -/
def isWS (c : Char) : Bool :=
  c == ' ' || c == '\t' || c == '\n' || c == '\r' ||
  c == '\x0b' || c == '\x0c' || c == Char.ofNat 0xa0

/-- The backtick character (code point 96). -/
def btick : Char := Char.ofNat 96

/-- JS `String.prototype.trimStart`. -/
def jsTrimStart (l : List Char) : List Char := l.dropWhile isWS

/-- JS `String.prototype.trimEnd`. -/
def jsTrimEnd (l : List Char) : List Char := (l.reverse.dropWhile isWS).reverse

/-- JS `String.prototype.trim`. -/
def jsTrim (l : List Char) : List Char := jsTrimEnd (jsTrimStart l)

/-- JS `s.split('\n')` on a character list: segments between newline
separators, empty segments preserved, `[""]` for the empty string. -/
def splitLines : List Char → List (List Char)
  | [] => [[]]
  | c :: rest =>
    if c == '\n' then [] :: splitLines rest
    else
      match splitLines rest with
      | [] => [[c]]
      | l :: ls => (c :: l) :: ls

/-- JS `lines.join('\n')`. -/
def joinLines : List (List Char) → List Char
  | [] => []
  | [l] => l
  | l :: rest => l ++ '\n' :: joinLines rest

/-- Backward scan of `handleFormat`:
`while (lineStart > 0 && content[lineStart-1] !== '\n') lineStart--`. -/
def lineStartAux (content : List Char) : Nat → Nat
  | 0 => 0
  | n + 1 => if content[n]? == some '\n' then n + 1 else lineStartAux content n

/-- Fuelled forward scan for the end of the current line. -/
def lineEndGo (content : List Char) : Nat → Nat → Nat
  | p, 0 => p
  | p, fuel + 1 =>
    match content[p]? with
    | some c => if c == '\n' then p else lineEndGo content (p + 1) fuel
    | none => p

/-- Forward scan of `handleFormat`:
`while (lineEnd < content.length && content[lineEnd] !== '\n') lineEnd++`. -/
def lineEndFrom (content : List Char) (p : Nat) : Nat :=
  lineEndGo content p (content.length - p)

/-- `content.slice(a, b)` for `0 ≤ a ≤ b` (the only shape the engine
uses with `Nat` offsets): code units `[a, min b len)`. -/
def sliceN (l : List Char) (a b : Nat) : List Char := (l.take b).drop a

/-- Static format descriptor from the `formats` table in `handleFormat`.
`pre`/`suffix`/`placeholder` are the JS string fields; `isLine` is the
optional `linePrefix` flag. -/
structure FormatSpec where
  pre : List Char
  suffix : List Char
  placeholder : List Char
  isLine : Bool
deriving Repr, DecidableEq

/-- The `formats` lookup table of `handleFormat`, keyed by format id. -/
def formats : String → Option FormatSpec
  | "bold" => some ⟨"**".toList, "**".toList, "bold text".toList, false⟩
  | "italic" => some ⟨"*".toList, "*".toList, "italic text".toList, false⟩
  | "code" => some ⟨[btick], [btick], "code".toList, false⟩
  | "strikethrough" => some ⟨"~~".toList, "~~".toList, "strikethrough".toList, false⟩
  | "paragraph" => some ⟨[], [], [], true⟩
  | "h1" => some ⟨"# ".toList, [], "Heading 1".toList, true⟩
  | "h2" => some ⟨"## ".toList, [], "Heading 2".toList, true⟩
  | "h3" => some ⟨"### ".toList, [], "Heading 3".toList, true⟩
  | "h4" => some ⟨"#### ".toList, [], "Heading 4".toList, true⟩
  | "h5" => some ⟨"##### ".toList, [], "Heading 5".toList, true⟩
  | "h6" => some ⟨"###### ".toList, [], "Heading 6".toList, true⟩
  | "quote" => some ⟨"> ".toList, [], "quote".toList, true⟩
  | "list" => some ⟨"- ".toList, [], "list item".toList, true⟩
  | "orderedList" => some ⟨"1. ".toList, [], "list item".toList, true⟩
  | "task" => some ⟨"- [ ] ".toList, [], "task".toList, true⟩
  | "codeBlock" => some ⟨[btick, btick, btick, '\n'], ['\n', btick, btick, btick], "code here".toList, false⟩
  | "hr" => some ⟨"\n---\n".toList, [], [], false⟩
  | "table" => some ⟨("\n| Header 1 | Header 2 | Header 3 |\n| -------- | -------- | -------- |\n| Cell 1   | Cell 2   | Cell 3   |\n| Cell 4   | Cell 5   | Cell 6   |\n").toList, [], [], false⟩
  | "footnote" => some ⟨"[^".toList, "]".toList, "note".toList, false⟩
  | "subscript" => some ⟨"<sub>".toList, "</sub>".toList, "subscript".toList, false⟩
  | "superscript" => some ⟨"<sup>".toList, "</sup>".toList, "superscript".toList, false⟩
  | "highlight" => some ⟨"<mark>".toList, "</mark>".toList, "highlighted text".toList, false⟩
  | _ => none

/-- Outcome of a `handleFormat` call: either no editor update at all
(the early `return` paths) or a committed new buffer plus the selection
passed to `setSelection` (JS number arithmetic, hence `Int`). -/
inductive FormatResult where
  | noop : FormatResult
  | commit (buffer : List Char) (selStart selEnd : Int) : FormatResult
deriving Repr, DecidableEq

/-- Matcher for `/^(#{1,6})\s/`: returns `(match[0], match[1])`. -/
def pHeading (l : List Char) : Option (List Char × List Char) :=
  let hs := l.takeWhile (· == '#')
  if 1 ≤ hs.length ∧ hs.length ≤ 6 then
    match l[hs.length]? with
    | some c => if isWS c then some (hs ++ [c], hs) else none
    | none => none
  else none

/-- Matcher for `/^(>+)\s?/`: returns `(match[0], match[1])`. -/
def pQuote (l : List Char) : Option (List Char × List Char) :=
  let gs := l.takeWhile (· == '>')
  if 1 ≤ gs.length then
    match l[gs.length]? with
    | some c => if isWS c then some (gs ++ [c], gs) else some (gs, gs)
    | none => some (gs, gs)
  else none

/-- `[-*+]` bullet characters. -/
def isBulletChar (c : Char) : Bool := c == '-' || c == '*' || c == '+'

/-- Matcher for `/^(\s*)[-*+]\s(?!\[)/`: returns `(match[0], match[1])`. -/
def pBullet (l : List Char) : Option (List Char × List Char) :=
  let ws := l.takeWhile isWS
  match l[ws.length]?, l[(ws.length + 1)]? with
  | some b, some w =>
    if isBulletChar b ∧ isWS w ∧ l[(ws.length + 2)]? ≠ some '[' then
      some (ws ++ [b, w], ws)
    else none
  | _, _ => none

/-- Matcher for `/^(\s*)\d+\.\s/`: returns `(match[0], match[1])`. -/
def pOrdered (l : List Char) : Option (List Char × List Char) :=
  let ws := l.takeWhile isWS
  let ds := (l.drop ws.length).takeWhile Char.isDigit
  if 1 ≤ ds.length then
    match l[(ws.length + ds.length)]?, l[(ws.length + ds.length + 1)]? with
    | some d, some w =>
      if d = '.' ∧ isWS w then some (ws ++ ds ++ ['.', w], ws) else none
    | _, _ => none
  else none

/-- Matcher for `/^(\s*)[-*+]\s\[[ xX]\]\s/`: returns `(match[0], match[1])`. -/
def pTask (l : List Char) : Option (List Char × List Char) :=
  let ws := l.takeWhile isWS
  match l[ws.length]?, l[(ws.length + 1)]?, l[(ws.length + 2)]?,
        l[(ws.length + 3)]?, l[(ws.length + 4)]?, l[(ws.length + 5)]? with
  | some b, some w, some ob, some m, some cb, some w2 =>
    if isBulletChar b ∧ isWS w ∧ ob = '[' ∧ (m = ' ' ∨ m = 'x' ∨ m = 'X') ∧
        cb = ']' ∧ isWS w2 then
      some (ws ++ [b, w, ob, m, cb, w2], ws)
    else none
  | _, _, _, _, _, _ => none

/-- The `linePrefixPatterns` array tried in order on one line. -/
def firstPat (l : List Char) : Option (List Char × List Char) :=
  match pHeading l with
  | some r => some r
  | none =>
    match pQuote l with
    | some r => some r
    | none =>
      match pBullet l with
      | some r => some r
      | none =>
        match pOrdered l with
        | some r => some r
        | none => pTask l

/-- Decimal digits of `n` as JS `` `${orderNum}` `` produces them. -/
def natDigits (n : Nat) : List Char := (Nat.repr n).toList

/-- The `lines.map` body of the line-prefix branch, with the mutable
`orderNum` counter threaded through. -/
def processLines (type : String) (fmt : FormatSpec) (allHave : Bool) :
    Nat → List (List Char) → List (List Char)
  | _, [] => []
  | n, line :: rest =>
    if (jsTrim line).length = 0 then line :: processLines type fmt allHave n rest
    else if allHave then
      (match firstPat line with
       | some (m0, _) => line.drop m0.length
       | none => line) :: processLines type fmt allHave n rest
    else
      match firstPat line with
      | some (m0, g1) =>
        let indent := if g1 ≠ [] ∧ g1.head? ≠ some '#' ∧ g1.head? ≠ some '>' then g1 else []
        let actual := if type == "orderedList" then indent ++ natDigits n ++ ['.', ' ']
          else indent ++ fmt.pre
        let n2 := if type == "orderedList" then n + 1 else n
        (actual ++ line.drop m0.length) :: processLines type fmt allHave n2 rest
      | none =>
        let actual := if type == "orderedList" then natDigits n ++ ['.', ' '] else fmt.pre
        let n2 := if type == "orderedList" then n + 1 else n
        (actual ++ line) :: processLines type fmt allHave n2 rest

/-- The multi-line line-prefix branch of `handleFormat` (toggle off /
replace / add over all physical lines spanned by the selection). -/
def lineBlockApply (content : List Char) (start endPos : Nat) (type : String)
    (fmt : FormatSpec) : FormatResult :=
  let firstLineStart := lineStartAux content start
  let lastLineEnd := lineEndFrom content endPos
  let selectedBlock := sliceN content firstLineStart lastLineEnd
  let lines := splitLines selectedBlock
  let nonEmptyLines := lines.filter (fun l => decide (0 < (jsTrim l).length))
  let allHavePre := decide (0 < nonEmptyLines.length) &&
    nonEmptyLines.all (fun line =>
      if type == "orderedList" then (pOrdered line).isSome
      else (jsTrim fmt.pre).isPrefixOf (jsTrimStart line))
  let newBlock := joinLines (processLines type fmt allHavePre 1 lines)
  let newContent := content.take firstLineStart ++ newBlock ++ content.drop lastLineEnd
  .commit newContent (firstLineStart : Int)
    ((lastLineEnd : Int) + ((newBlock.length : Int) - (selectedBlock.length : Int)))

/-- Test for `/^=+\s*$/`. -/
def testEqUnderline (l : List Char) : Bool :=
  let es := l.takeWhile (· == '=')
  decide (1 ≤ es.length) && (l.drop es.length).all isWS

/-- Test for `/^-+\s*$/`. -/
def testDashUnderline (l : List Char) : Bool :=
  let ds := l.takeWhile (· == '-')
  decide (1 ≤ ds.length) && (l.drop ds.length).all isWS

/-- The special `paragraph` branch of `handleFormat`: strip a hash
heading prefix from the current line, or delete a setext underline on
the next line; otherwise no-op.  When the underline is deleted the code
does not call `setSelection`, so the editor selection stays put. -/
def paragraphApply (content : List Char) (start endPos : Nat) : FormatResult :=
  let lineStart := lineStartAux content start
  let lineEnd := lineEndFrom content endPos
  let lineContent := sliceN content lineStart lineEnd
  match pHeading lineContent with
  | some (m0, _) =>
    .commit (content.take lineStart ++ content.drop (lineStart + m0.length))
      (max (lineStart : Int) ((start : Int) - (m0.length : Int)))
      ((endPos : Int) - (m0.length : Int))
  | none =>
    let nextLineStart := lineEnd + 1
    let nextLineEnd := lineEndFrom content nextLineStart
    let nextLine := sliceN content nextLineStart nextLineEnd
    if testEqUnderline nextLine || testDashUnderline nextLine then
      .commit (content.take lineEnd ++ content.drop nextLineEnd)
        (start : Int) (endPos : Int)
    else .noop

/-- The four toggle-off checks of `handleFormat` for inline formats
(primary border, alternate-marker border, wrapped selection,
alternate-marker wrapped selection), in source order.  `none` means no
check fired and control falls through to the wrap branch. -/
def inlineToggle (content : List Char) (start endPos : Nat) (type : String)
    (fmt : FormatSpec) (selectedText : List Char) : Option FormatResult :=
  let p := fmt.pre.length
  let s := fmt.suffix.length
  let beforeStart := (content.take start).drop (start - p)
  let afterEnd := (content.drop endPos).take s
  if beforeStart = fmt.pre ∧ afterEnd = fmt.suffix then
    some (.commit (content.take (start - p) ++ selectedText ++ content.drop (endPos + s))
      ((start : Int) - (p : Int)) ((endPos : Int) - (p : Int)))
  else
    let altBorder : Option FormatResult :=
      if type == "bold" || type == "italic" then
        let alt : List Char := if type == "bold" then ['_', '_'] else ['_']
        let a := alt.length
        let beforeAlt := (content.take start).drop (start - a)
        let afterAlt := (content.drop endPos).take a
        if beforeAlt = alt ∧ afterAlt = alt then
          some (.commit (content.take (start - a) ++ selectedText ++ content.drop (endPos + a))
            ((start : Int) - (a : Int)) ((endPos : Int) - (a : Int)))
        else none
      else none
    match altBorder with
    | some r => some r
    | none =>
      if fmt.pre.isPrefixOf selectedText ∧ fmt.suffix.isSuffixOf selectedText ∧
          p + s < selectedText.length then
        let unwrapped := (selectedText.take (selectedText.length - s)).drop p
        some (.commit (content.take start ++ unwrapped ++ content.drop endPos)
          (start : Int) ((start : Int) + (unwrapped.length : Int)))
      else
        if type == "bold" || type == "italic" then
          let alt : List Char := if type == "bold" then ['_', '_'] else ['_']
          let a := alt.length
          if alt.isPrefixOf selectedText ∧ alt.isSuffixOf selectedText ∧
              a + a < selectedText.length then
            let unwrapped := (selectedText.take (selectedText.length - a)).drop a
            some (.commit (content.take start ++ unwrapped ++ content.drop endPos)
              (start : Int) ((start : Int) + (unwrapped.length : Int)))
          else none
        else none

/-- The final insertion branch of `handleFormat` for non-line formats:
wrap the selection (or the placeholder when the selection is empty). -/
def applyWrap (content : List Char) (start endPos : Nat) (fmt : FormatSpec)
    (selectedText : List Char) : FormatResult :=
  let textToFormat := if selectedText.isEmpty then fmt.placeholder else selectedText
  .commit (content.take start ++ fmt.pre ++ textToFormat ++ fmt.suffix ++ content.drop endPos)
    ((start + fmt.pre.length : Nat) : Int)
    ((start + fmt.pre.length + textToFormat.length : Nat) : Int)

/-- The final insertion branch for line formats with an empty
selection: insert `prefix + placeholder` at the start of the line. -/
def linePlaceholder (content : List Char) (start : Nat) (fmt : FormatSpec) : FormatResult :=
  let ls := lineStartAux content start
  .commit (content.take ls ++ fmt.pre ++ fmt.placeholder ++ content.drop ls)
    ((ls + fmt.pre.length : Nat) : Int)
    ((ls + fmt.pre.length + fmt.placeholder.length : Nat) : Int)

/-- Test for `/^#{k}\s/` with exactly `k` leading hashes (the per-level
heading regexes `^#\s` .. `^######\s` of `detectActiveStyles`). -/
def testHashHeading (k : Nat) (l : List Char) : Bool :=
  (List.replicate k '#').isPrefixOf l &&
  (match l[k]? with
   | some c => isWS c
   | none => false)

/-- The set of style flags `detectActiveStyles` can put in its
`Set<string>`; one Boolean field per possible member. -/
structure StyleSet where
  bold : Bool
  italic : Bool
  strikethrough : Bool
  code : Bool
  subscript : Bool
  superscript : Bool
  highlight : Bool
  h1 : Bool
  h2 : Bool
  h3 : Bool
  h4 : Bool
  h5 : Bool
  h6 : Bool
  quote : Bool
  list : Bool
  orderedList : Bool
  task : Bool
  paragraph : Bool
deriving Repr, DecidableEq

/-- Membership in the returned style set, by format identifier. -/
def StyleSet.hasStyle (s : StyleSet) (f : String) : Bool :=
  match f with
  | "bold" => s.bold
  | "italic" => s.italic
  | "strikethrough" => s.strikethrough
  | "code" => s.code
  | "subscript" => s.subscript
  | "superscript" => s.superscript
  | "highlight" => s.highlight
  | "h1" => s.h1
  | "h2" => s.h2
  | "h3" => s.h3
  | "h4" => s.h4
  | "h5" => s.h5
  | "h6" => s.h6
  | "quote" => s.quote
  | "list" => s.list
  | "orderedList" => s.orderedList
  | "task" => s.task
  | "paragraph" => s.paragraph
  | _ => false

/-- The full current line used by the line-anchored detection checks:
scan back from `from` and forward from `to` to the nearest newline. -/
def fullLineOf (content : List Char) (fro toPos : Nat) : List Char :=
  sliceN content (lineStartAux content fro) (lineEndFrom content toPos)

/-- The line after the current one (for setext heading detection). -/
def nextLineOf (content : List Char) (toPos : Nat) : List Char :=
  let nextLineStart := lineEndFrom content toPos + 1
  sliceN content nextLineStart (lineEndFrom content nextLineStart)

/-- `detectActiveStyles(text, from, to)` from `App.tsx`, with the
`content` closure made explicit.  Mirrors the source line by line:
inline border/wrap checks against a 10-character lookaround window,
then line-anchored checks on the current line (and the next line for
setext headings). -/
def detectActiveStyles (content text : List Char) (fro toPos : Nat) : StyleSet :=
  let beforeSelection := (content.take fro).drop (fro - min fro 10)
  let afterSelection := (content.drop toPos).take (min (content.length - toPos) 10)
  let isBoldAst := (['*', '*'].isSuffixOf beforeSelection && ['*', '*'].isPrefixOf afterSelection) ||
    (['*', '*'].isPrefixOf text && ['*', '*'].isSuffixOf text && decide (4 < text.length))
  let isBoldUnd := (['_', '_'].isSuffixOf beforeSelection && ['_', '_'].isPrefixOf afterSelection) ||
    (['_', '_'].isPrefixOf text && ['_', '_'].isSuffixOf text && decide (4 < text.length))
  let beSingleStar := ['*'].isSuffixOf beforeSelection && !(['*', '*'].isSuffixOf beforeSelection)
  let afSingleStar := ['*'].isPrefixOf afterSelection && !(['*', '*'].isPrefixOf afterSelection)
  let beSingleUnd := ['_'].isSuffixOf beforeSelection && !(['_', '_'].isSuffixOf beforeSelection)
  let afSingleUnd := ['_'].isPrefixOf afterSelection && !(['_', '_'].isPrefixOf afterSelection)
  let isItalicAst := (beSingleStar && afSingleStar) ||
    (['*'].isPrefixOf text && !(['*', '*'].isPrefixOf text) && ['*'].isSuffixOf text &&
     !(['*', '*'].isSuffixOf text) && decide (2 < text.length))
  let isItalicUnd := (beSingleUnd && afSingleUnd) ||
    (['_'].isPrefixOf text && !(['_', '_'].isPrefixOf text) && ['_'].isSuffixOf text &&
     !(['_', '_'].isSuffixOf text) && decide (2 < text.length))
  let strikeF := (['~', '~'].isSuffixOf beforeSelection && ['~', '~'].isPrefixOf afterSelection) ||
    (['~', '~'].isPrefixOf text && ['~', '~'].isSuffixOf text && decide (4 < text.length))
  let codeF := ([btick].isSuffixOf beforeSelection && !([btick, btick].isSuffixOf beforeSelection) &&
      [btick].isPrefixOf afterSelection && !([btick, btick].isPrefixOf afterSelection)) ||
    ([btick].isPrefixOf text && !([btick, btick].isPrefixOf text) && [btick].isSuffixOf text &&
     !([btick, btick].isSuffixOf text) && decide (2 < text.length))
  let subF := (['<','s','u','b','>'].isSuffixOf beforeSelection &&
      ['<','/','s','u','b','>'].isPrefixOf afterSelection) ||
    (['<','s','u','b','>'].isPrefixOf text && ['<','/','s','u','b','>'].isSuffixOf text)
  let supF := (['<','s','u','p','>'].isSuffixOf beforeSelection &&
      ['<','/','s','u','p','>'].isPrefixOf afterSelection) ||
    (['<','s','u','p','>'].isPrefixOf text && ['<','/','s','u','p','>'].isSuffixOf text)
  let markF := (['<','m','a','r','k','>'].isSuffixOf beforeSelection &&
      ['<','/','m','a','r','k','>'].isPrefixOf afterSelection) ||
    (['<','m','a','r','k','>'].isPrefixOf text && ['<','/','m','a','r','k','>'].isSuffixOf text)
  let fullLineContent := fullLineOf content fro toPos
  let nextLine := nextLineOf content toPos
  let isH1Hash := testHashHeading 1 fullLineContent
  let isH2Hash := testHashHeading 2 fullLineContent
  let isH3Hash := testHashHeading 3 fullLineContent
  let isH4Hash := testHashHeading 4 fullLineContent
  let isH5Hash := testHashHeading 5 fullLineContent
  let isH6Hash := testHashHeading 6 fullLineContent
  let isH1Alt := testEqUnderline nextLine && decide (0 < (jsTrim fullLineContent).length)
  let isH2Alt := testDashUnderline nextLine && decide (0 < (jsTrim fullLineContent).length) &&
    !(fullLineContent.head? == some '>')
  let c1 := isH1Hash || isH1Alt
  let c2 := isH2Hash || isH2Alt
  let isQuoteF := (pQuote fullLineContent).isSome
  let isBulletF := (pBullet fullLineContent).isSome
  let isOrderedF := (pOrdered fullLineContent).isSome
  let isTaskF := (pTask fullLineContent).isSome
  let hasLinePre := isH1Hash || isH2Hash || isH3Hash || isH4Hash || isH5Hash || isH6Hash ||
    isH1Alt || isH2Alt || isQuoteF || isBulletF || isOrderedF || isTaskF
  { bold := isBoldAst || isBoldUnd
    italic := isItalicAst || isItalicUnd
    strikethrough := strikeF
    code := codeF
    subscript := subF
    superscript := supF
    highlight := markF
    h1 := c1
    h2 := !c1 && c2
    h3 := !c1 && !c2 && isH3Hash
    h4 := !c1 && !c2 && !isH3Hash && isH4Hash
    h5 := !c1 && !c2 && !isH3Hash && !isH4Hash && isH5Hash
    h6 := !c1 && !c2 && !isH3Hash && !isH4Hash && !isH5Hash && isH6Hash
    quote := isQuoteF
    list := isBulletF
    orderedList := isOrderedF
    task := isTaskF
    paragraph := !hasLinePre && decide (0 < (jsTrim fullLineContent).length) }

/-- One left-to-right pass of a JS global `String.replace`: the matcher
receives the previous original character (for lookbehinds) and the rest
of the input; on a match it yields the replacement and the number of
characters consumed (always at least one for the regexes used here),
and scanning resumes after the match, as `lastIndex` does. -/
def rScan (m : Option Char → List Char → Option (List Char × Nat)) :
    Option Char → Nat → List Char → List Char
  | _, 0, l => l
  | _, _ + 1, [] => []
  | prev, fuel + 1, c :: rest =>
    match m prev (c :: rest) with
    | some (rep, k) =>
      if 1 ≤ k then rep ++ rScan m (((c :: rest).take k).getLast?) fuel ((c :: rest).drop k)
      else c :: rScan m (some c) fuel rest
    | none => c :: rScan m (some c) fuel rest

/-- Run a global-replace pass over a whole string. -/
def runScan (m : Option Char → List Char → Option (List Char × Nat))
    (l : List Char) : List Char :=
  rScan m none l.length l

/-- Index of the first occurrence of `needle`. -/
def findNeedle (needle : List Char) : List Char → Option Nat
  | [] => if needle.isEmpty then some 0 else none
  | c :: rest =>
    if needle.isPrefixOf (c :: rest) then some 0
    else (findNeedle needle rest).map (· + 1)

/-- ASCII letter (the `[a-z]` class under the `i` flag). -/
def isAsciiLetter (c : Char) : Bool :=
  ('a' ≤ c && c ≤ 'z') || ('A' ≤ c && c ≤ 'Z')

/-- ASCII letter or digit (the `[a-z0-9]` class under the `i` flag). -/
def isAsciiAlnum (c : Char) : Bool := isAsciiLetter c || c.isDigit

/-- Lower-case a character list. -/
def toLowerL (l : List Char) : List Char := l.map Char.toLower

/-- `/```[a-z]*\n?([\s\S]*?)```/gi` keeping the group. -/
def mCodeBlock (_ : Option Char) (l : List Char) : Option (List Char × Nat) :=
  if [btick, btick, btick].isPrefixOf l then
    let r1 := l.drop 3
    let lang := r1.takeWhile isAsciiLetter
    let r2 := r1.drop lang.length
    let nl := if r2.head? == some '\n' then 1 else 0
    let r3 := r2.drop nl
    match findNeedle [btick, btick, btick] r3 with
    | some d => some (r3.take d, 3 + lang.length + nl + d + 3)
    | none => none
  else none

/-- `` /`([^`]+)`/g `` keeping the group. -/
def mInlineCode (_ : Option Char) (l : List Char) : Option (List Char × Nat) :=
  match l with
  | c :: rest =>
    if c == btick then
      let inner := rest.takeWhile (· ≠ btick)
      if 1 ≤ inner.length ∧ rest[inner.length]? = some btick then
        some (inner, inner.length + 2)
      else none
    else none
  | [] => none

/-- `/!\[([^\]]*)\]\([^)]*\)/g` keeping the alt text. -/
def mImageParen (_ : Option Char) (l : List Char) : Option (List Char × Nat) :=
  match l with
  | '!' :: '[' :: rest =>
    let alt := rest.takeWhile (· ≠ ']')
    if rest[alt.length]? = some ']' ∧ rest[(alt.length + 1)]? = some '(' then
      let r2 := rest.drop (alt.length + 2)
      let url := r2.takeWhile (· ≠ ')')
      if r2[url.length]? = some ')' then
        some (alt, 2 + alt.length + 2 + url.length + 1)
      else none
    else none
  | _ => none

/-- `/!\[([^\]]*)\]\[[^\]]*\]/g` keeping the alt text. -/
def mImageRef (_ : Option Char) (l : List Char) : Option (List Char × Nat) :=
  match l with
  | '!' :: '[' :: rest =>
    let alt := rest.takeWhile (· ≠ ']')
    if rest[alt.length]? = some ']' ∧ rest[(alt.length + 1)]? = some '[' then
      let r2 := rest.drop (alt.length + 2)
      let ref := r2.takeWhile (· ≠ ']')
      if r2[ref.length]? = some ']' then
        some (alt, 2 + alt.length + 2 + ref.length + 1)
      else none
    else none
  | _ => none

/-- `/\[([^\]]+)\]\([^)]*\)/g` keeping the link text. -/
def mLinkParen (_ : Option Char) (l : List Char) : Option (List Char × Nat) :=
  match l with
  | '[' :: rest =>
    let txt := rest.takeWhile (· ≠ ']')
    if 1 ≤ txt.length ∧ rest[txt.length]? = some ']' ∧
        rest[(txt.length + 1)]? = some '(' then
      let r2 := rest.drop (txt.length + 2)
      let url := r2.takeWhile (· ≠ ')')
      if r2[url.length]? = some ')' then
        some (txt, 1 + txt.length + 2 + url.length + 1)
      else none
    else none
  | _ => none

/-- `/\[([^\]]+)\]\[[^\]]*\]/g` keeping the link text. -/
def mLinkRef (_ : Option Char) (l : List Char) : Option (List Char × Nat) :=
  match l with
  | '[' :: rest =>
    let txt := rest.takeWhile (· ≠ ']')
    if 1 ≤ txt.length ∧ rest[txt.length]? = some ']' ∧
        rest[(txt.length + 1)]? = some '[' then
      let r2 := rest.drop (txt.length + 2)
      let ref := r2.takeWhile (· ≠ ']')
      if r2[ref.length]? = some ']' then
        some (txt, 1 + txt.length + 2 + ref.length + 1)
      else none
    else none
  | _ => none

/-- Full-line test for `/^\s*\[[^\]]+\]:\s*\S.*$/` (the `gm` pass is
applied line-wise: its anchors sit at line boundaries and `.` does not
cross a newline). -/
def lineIsRefDef (l : List Char) : Bool :=
  let r := l.dropWhile isWS
  match r with
  | '[' :: rest =>
    let ref := rest.takeWhile (· ≠ ']')
    decide (1 ≤ ref.length) && rest[ref.length]? == some ']' &&
    rest[(ref.length + 1)]? == some ':' &&
    !((rest.drop (ref.length + 2)).dropWhile isWS).isEmpty
  | _ => false

/-- `/\[\^[^\]]+\]/g` removed. -/
def mFootRef (_ : Option Char) (l : List Char) : Option (List Char × Nat) :=
  match l with
  | '[' :: '^' :: rest =>
    let idt := rest.takeWhile (· ≠ ']')
    if 1 ≤ idt.length ∧ rest[idt.length]? = some ']' then
      some ([], 2 + idt.length + 1)
    else none
  | _ => none

/-- `/\^\[[^\]]*\]/g` (inline footnotes) removed. -/
def mInlineFoot (_ : Option Char) (l : List Char) : Option (List Char × Nat) :=
  match l with
  | '^' :: '[' :: rest =>
    let idt := rest.takeWhile (· ≠ ']')
    if rest[idt.length]? = some ']' then
      some ([], 2 + idt.length + 1)
    else none
  | _ => none

/-- Lazy consumption of `[\s\S]*?` up to the lookahead
`(?=\n\S|\n\n|\Z)` in the footnote-definition regex. -/
def footConsume : List Char → Nat
  | [] => 0
  | ['\n'] => 1
  | '\n' :: c :: rest =>
    if c = '\n' ∨ isWS c = false then 0 else 1 + footConsume (c :: rest)
  | _ :: rest => 1 + footConsume rest

/-- `/^\s*\[\^[^\]]+\]:[\s\S]*?(?=\n\S|\n\n|\Z)/gm` removed; the `^`
anchor is tracked through the previous-character argument. -/
def mFootDef (prev : Option Char) (l : List Char) : Option (List Char × Nat) :=
  if prev = none ∨ prev = some '\n' then
    let ws := l.takeWhile isWS
    match l.drop ws.length with
    | '[' :: '^' :: rest =>
      let idt := rest.takeWhile (· ≠ ']')
      if 1 ≤ idt.length ∧ rest[idt.length]? = some ']' ∧
          rest[(idt.length + 1)]? = some ':' then
        let consumed := ws.length + 2 + idt.length + 2
        some ([], consumed + footConsume (l.drop consumed))
      else none
    | _ => none
  else none

/-- Symmetric-marker unwrapping `marker([^bad]+)marker` keeping the
group; used for `***`, `___`, `**`, `__`, `*` and `~~`. -/
def mWrap (marker : List Char) (bad : Char) (l : List Char) : Option (List Char × Nat) :=
  if marker.isPrefixOf l then
    let r := l.drop marker.length
    let inner := r.takeWhile (· ≠ bad)
    if 1 ≤ inner.length ∧ marker.isPrefixOf (r.drop inner.length) then
      some (inner, marker.length + inner.length + marker.length)
    else none
  else none

/-- `/(?<![\\])_([^_]+)_/g` keeping the group (the lookbehind is the
previous original character). -/
def mItalicUnd (prev : Option Char) (l : List Char) : Option (List Char × Nat) :=
  if prev = some '\\' then none else mWrap ['_'] '_' l

/-- The character class of `/\\([*_`~\[\]()#+-\.!|\\])/g`; `+-\.`
parses as the range U+002B..U+002E, so the comma is included. -/
def escClass (c : Char) : Bool :=
  c == '*' || c == '_' || c == btick || c == '~' || c == '[' || c == ']' ||
  c == '(' || c == ')' || c == '#' || c == '+' || c == ',' || c == '-' ||
  c == '.' || c == '!' || c == '|' || c == '\\'

/-- Backslash-escape removal keeping the escaped character. -/
def mEscape (_ : Option Char) (l : List Char) : Option (List Char × Nat) :=
  match l with
  | '\\' :: c :: _ => if escClass c then some ([c], 2) else none
  | _ => none

/-- Backtracking over candidate tag lengths (longest first, as the
greedy `([a-z][a-z0-9]*)` does) for the paired-HTML-tag regex; `l` is
the text after the opening `<`. -/
def htmlTryTag (l : List Char) : Nat → Option (List Char × Nat)
  | 0 => none
  | j + 1 =>
    let tag := l.take (j + 1)
    let r := l.drop (j + 1)
    let attrs := r.takeWhile (· ≠ '>')
    match r[attrs.length]? with
    | some _ =>
      let inner0 := r.drop (attrs.length + 1)
      let closing := '<' :: '/' :: (toLowerL tag ++ ['>'])
      match findNeedle closing (toLowerL inner0) with
      | some d => some (inner0.take d, 1 + (j + 1) + attrs.length + 1 + d + closing.length)
      | none => htmlTryTag l j
    | none => htmlTryTag l j

/-- `/<([a-z][a-z0-9]*)[^>]*>([\s\S]*?)<\/\1>/gi` keeping the inner
text (the backreference is compared case-insensitively). -/
def mHtmlPair (_ : Option Char) (l : List Char) : Option (List Char × Nat) :=
  match l with
  | '<' :: rest =>
    match rest.head? with
    | some c =>
      if isAsciiLetter c then htmlTryTag rest (rest.takeWhile isAsciiAlnum).length
      else none
    | none => none
  | _ => none

/-- `/<[^>]+\/?>/g` (self-closing and remaining tags) removed. -/
def mHtmlRest (_ : Option Char) (l : List Char) : Option (List Char × Nat) :=
  match l with
  | '<' :: rest =>
    let inner := rest.takeWhile (· ≠ '>')
    if 1 ≤ inner.length ∧ rest[inner.length]? = some '>' then
      some ([], inner.length + 2)
    else none
  | _ => none

/-- Horizontal-rule line test `/^\s*[c]{3,}\s*$/` for one rule char. -/
def hrRun (ch : Char) (l : List Char) : Bool :=
  let ws := l.takeWhile isWS
  let rs := (l.drop ws.length).takeWhile (· == ch)
  decide (3 ≤ rs.length) && (l.drop (ws.length + rs.length)).all isWS

/-- The three horizontal-rule tests of the clear-formatting line pass. -/
def hrLine (l : List Char) : Bool := hrRun '-' l || hrRun '*' l || hrRun '_' l

/-- The per-line body of the clear-formatting line pass: strip heading
hashes, drop setext underlines (previous original line non-blank and
without a pipe), strip nested blockquote markers, bullet/ordered/task
list markers, and blank out horizontal-rule lines. -/
def cleanLine (line : List Char) (prevLine : Option (List Char)) : List Char :=
  let hs := line.takeWhile (· == '#')
  let cleaned :=
    if 1 ≤ hs.length ∧ hs.length ≤ 6 then
      let wsr := (line.drop hs.length).takeWhile isWS
      if 1 ≤ wsr.length then line.drop (hs.length + wsr.length) else line
    else line
  if (testEqUnderline cleaned || testDashUnderline cleaned) &&
      (match prevLine with
       | some pl => decide (0 < (jsTrim pl).length) && !(pl.contains '|')
       | none => false) then []
  else
    let qp := cleaned.takeWhile (fun c => isWS c || c == '>')
    let cleaned := if qp.contains '>' then cleaned.drop qp.length else cleaned
    let cleaned :=
      let ws := cleaned.takeWhile isWS
      match cleaned[ws.length]? with
      | some b =>
        if isBulletChar b then
          let ws2 := (cleaned.drop (ws.length + 1)).takeWhile isWS
          if decide (1 ≤ ws2.length) then cleaned.drop (ws.length + 1 + ws2.length) else cleaned
        else cleaned
      | none => cleaned
    let cleaned : List Char :=
      let ws : List Char := cleaned.takeWhile isWS
      let ds : List Char := (cleaned.drop ws.length).takeWhile Char.isDigit
      if decide (1 ≤ ds.length) && (cleaned[(ws.length + ds.length)]? == some '.') then
        let ws2 : List Char := (cleaned.drop (ws.length + ds.length + 1)).takeWhile isWS
        if decide (1 ≤ ws2.length) then cleaned.drop (ws.length + ds.length + 1 + ws2.length)
        else cleaned
      else cleaned
    let cleaned :=
      let ws := cleaned.takeWhile isWS
      match cleaned[ws.length]? with
      | some b =>
        if isBulletChar b then
          let ws2 := (cleaned.drop (ws.length + 1)).takeWhile isWS
          let p := ws.length + 1 + ws2.length
          match cleaned[p]?, cleaned[(p + 1)]?, cleaned[(p + 2)]? with
          | some ob, some m, some cb =>
            if (ob == '[') && (m == ' ' || m == 'x' || m == 'X') && (cb == ']') then
              let ws3 := (cleaned.drop (p + 3)).takeWhile isWS
              cleaned.drop (p + 3 + ws3.length)
            else cleaned
          | _, _, _ => cleaned
        else cleaned
      | none => cleaned
    if hrLine cleaned then [] else cleaned

/-- The line pass mapped over all lines, threading the previous
original line for the setext check. -/
def cleanLinesGo : Option (List Char) → List (List Char) → List (List Char)
  | _, [] => []
  | prev, l :: rest => cleanLine l prev :: cleanLinesGo (some l) rest

/-- JS `s.split('|')`. -/
def splitPipes : List Char → List (List Char)
  | [] => [[]]
  | c :: rest =>
    if c == '|' then [] :: splitPipes rest
    else
      match splitPipes rest with
      | [] => [[c]]
      | l :: ls => (c :: l) :: ls

/-- Table-separator-line test of the table pass. -/
def tableSepLine (l : List Char) : Bool :=
  !l.isEmpty && l.all (fun c => isWS c || c == '|' || c == ':' || c == '-') &&
  l.contains '-' && l.contains '|'

/-- The per-line body of the table pass: blank separator rows, rejoin
data-row cells with two spaces. -/
def tableLine (l : List Char) : List Char :=
  if tableSepLine l then []
  else if l.contains '|' then
    let l1 :=
      let ws := l.takeWhile isWS
      if l[ws.length]? = some '|' then l.drop (ws.length + 1) else l
    let l2 :=
      let wsr := l1.reverse.takeWhile isWS
      if l1.reverse[wsr.length]? = some '|' then (l1.reverse.drop (wsr.length + 1)).reverse
      else l1
    let cells := ((splitPipes l2).map jsTrim).filter (fun c => !c.isEmpty)
    if !cells.isEmpty then List.intercalate [' ', ' '] cells else []
  else l

/-- `/\n{3,}/g → "\n\n"`. -/
def mCollapse (_ : Option Char) (l : List Char) : Option (List Char × Nat) :=
  let ns := l.takeWhile (· == '\n')
  if 3 ≤ ns.length then some (['\n', '\n'], ns.length) else none

/-- The whitespace-only-line filter applied to the trimmed line array:
keep non-blank lines and single blank lines between two non-blank
neighbours. -/
def keepLines (arr : List (List Char)) : List (List Char) :=
  (arr.enum.filter (fun p =>
    !p.2.isEmpty ||
    (decide (0 < p.1) && decide (p.1 < arr.length - 1) &&
     !((arr[(p.1 - 1)]?).getD []).isEmpty &&
     !((arr[(p.1 + 1)]?).getD []).isEmpty))).map (·.2)

/-- The full clear-formatting pipeline of `handleFormat` applied to the
selected substring, pass for pass in source order. -/
def clearFormat (t0 : List Char) : List Char :=
  let t := runScan mCodeBlock t0
  let t := runScan mInlineCode t
  let t := runScan mImageParen t
  let t := runScan mImageRef t
  let t := runScan mLinkParen t
  let t := runScan mLinkRef t
  let t := joinLines ((splitLines t).map (fun l => if lineIsRefDef l then [] else l))
  let t := runScan mFootRef t
  let t := runScan mInlineFoot t
  let t := runScan mFootDef t
  let t := runScan (fun _ l => mWrap ['*', '*', '*'] '*' l) t
  let t := runScan (fun _ l => mWrap ['_', '_', '_'] '_' l) t
  let t := runScan (fun _ l => mWrap ['*', '*'] '*' l) t
  let t := runScan (fun _ l => mWrap ['_', '_'] '_' l) t
  let t := runScan (fun _ l => mWrap ['*'] '*' l) t
  let t := runScan mItalicUnd t
  let t := runScan (fun _ l => mWrap ['~', '~'] '~' l) t
  let t := runScan mEscape t
  let t := runScan mHtmlPair t
  let t := runScan mHtmlRest t
  let t := joinLines (cleanLinesGo none (splitLines t))
  let t := joinLines ((splitLines t).map tableLine)
  let t := runScan mCollapse t
  let t := joinLines (keepLines ((splitLines t).map jsTrim))
  jsTrim t

/-- `handleFormat(type)` from `App.tsx`, with the selection obtained
from the editor passed explicitly.  Control flow follows the source:
clear-formatting special case, catalog lookup, paragraph special case,
inline toggle-off checks, multi-line line-prefix transform, and the
fall-through insertion branch. -/
def handleFormat (content : List Char) (start endPos : Nat) (type : String) : FormatResult :=
  let selectedText := sliceN content start endPos
  if type == "clearFormatting" then
    if selectedText.isEmpty then .noop
    else
      let cleanText := clearFormat selectedText
      .commit (content.take start ++ cleanText ++ content.drop endPos)
        (start : Int) ((start + cleanText.length : Nat) : Int)
  else
    match formats type with
    | none => .noop
    | some fmt =>
      if type == "paragraph" then paragraphApply content start endPos
      else if !selectedText.isEmpty then
        if !fmt.isLine && !fmt.suffix.isEmpty then
          match inlineToggle content start endPos type fmt selectedText with
          | some r => r
          | none => applyWrap content start endPos fmt selectedText
        else if fmt.isLine then lineBlockApply content start endPos type fmt
        else applyWrap content start endPos fmt selectedText
      else if fmt.isLine then linePlaceholder content start fmt
      else applyWrap content start endPos fmt selectedText

/-- The format spec a given id resolves to (for stating theorems). -/
def fmtOf (f : String) : FormatSpec := (formats f).getD ⟨[], [], [], false⟩

/-- The defensive clamp of the editor component's `setSelection`
(`Editor.tsx`): both anchors are clamped into `[0, docLength]` before
the selection is dispatched. -/
def setSelectionClamp (docLength : Nat) (fro toPos : Int) : Int × Int :=
  (max 0 (min fro (docLength : Int)), max 0 (min toPos (docLength : Int)))

/-! ### Generic slice lemmas -/

theorem seg_take_drop (X m rest : List Char) :
    ((X ++ m ++ rest).take (X.length + m.length)).drop X.length = m := by
  induction X with
  | nil => simp [List.take_left]
  | cons c X ih =>
    simp only [List.cons_append, List.length_cons]
    have h1 : X.length + 1 + m.length = (X.length + m.length) + 1 := by omega
    rw [h1, List.take_succ_cons, List.drop_succ_cons]
    exact ih

theorem sliceN_self_empty (l : List Char) (n : Nat) : sliceN l n n = [] := by
  refine List.drop_eq_nil_iff.2 ?_
  simp [List.length_take]

theorem sliceN_decomp {content : List Char} {start endPos : Nat}
    (h1 : start ≤ endPos) (_h2 : endPos ≤ content.length) :
    content = content.take start ++ sliceN content start endPos ++ content.drop endPos := by
  have htt : (content.take endPos).take start = content.take start := by
    rw [List.take_take, Nat.min_eq_left h1]
  have h3 : content.take endPos = content.take start ++ sliceN content start endPos := by
    conv_lhs => rw [← List.take_append_drop start (content.take endPos)]
    rw [htt]; rfl
  conv_lhs => rw [← List.take_append_drop endPos content]
  rw [h3]

theorem length_take_of_le {content : List Char} {start : Nat}
    (h : start ≤ content.length) : (content.take start).length = start := by
  simp [List.length_take, Nat.min_eq_left h]

theorem length_sliceN {content : List Char} {start endPos : Nat}
    (h1 : start ≤ endPos) (h2 : endPos ≤ content.length) :
    (sliceN content start endPos).length = endPos - start := by
  simp [sliceN, List.length_drop, List.length_take]
  omega

theorem sliceN_of_append (X m rest : List Char) :
    sliceN (X ++ m ++ rest) X.length (X.length + m.length) = m :=
  seg_take_drop X m rest

/-! ### Claim theorems: error handling and the selection clamp -/

/-- C8: `handleFormat` with the `clearFormatting` command and an empty
selection `[n, n)` is a defined no-op: nothing is committed, buffer and
editor selection stay unchanged. -/
theorem clear_formatting_empty_selection_noop (content : List Char) (n : Nat) :
    handleFormat content n n "clearFormatting" = .noop := by
  have h : (sliceN content n n).isEmpty = true := by
    rw [sliceN_self_empty]; rfl
  simp [handleFormat, h]

/-- C7 (amended): a format id that is absent from the catalog (and is
not the special `clearFormatting` command) makes `handleFormat` return
without committing anything: a silent no-op, with no error signalled. -/
theorem unknown_format_silent_noop (content : List Char) (start endPos : Nat)
    (f : String) (hcf : f ≠ "clearFormatting") (hnone : formats f = none) :
    handleFormat content start endPos f = .noop := by
  have hbeq : (f == "clearFormatting") = false := by
    simpa using hcf
  simp [handleFormat, hbeq, hnone]

/-- C7 witness: the amended statement evaluated on a concrete unknown
format id. -/
theorem unknown_format_silent_noop_witness :
    handleFormat "abc".toList 0 2 "underline" = .noop :=
  unknown_format_silent_noop "abc".toList 0 2 "underline" (by decide) (by rfl)

/-- C7 counterexample: the original claim says an unknown format id is
rejected with an `UnknownFormat` error and never silently ignored; the
code's `if (!format) return;` silently ignores it — the call is
indistinguishable from the defined no-op (`FormatResult` has no error
case because the source has no error path). -/
theorem unknown_format_counterexample :
    handleFormat "abc".toList 0 1 "notAFormat" = .noop := by decide

/-- C10: the editor's `setSelection` clamps both requested anchors into
`[0, docLength]`, for every requested pair of offsets, including
negative, out-of-range and reversed ones. -/
theorem set_selection_clamp_in_bounds (docLength : Nat) (fro toPos : Int) :
    0 ≤ (setSelectionClamp docLength fro toPos).1 ∧
    (setSelectionClamp docLength fro toPos).1 ≤ docLength ∧
    0 ≤ (setSelectionClamp docLength fro toPos).2 ∧
    (setSelectionClamp docLength fro toPos).2 ≤ docLength := by
  simp only [setSelectionClamp]
  refine ⟨le_max_left 0 _, ?_, le_max_left 0 _, ?_⟩ <;> omega

/-! ### Inline wrap / toggle lemmas -/

theorem take_seg_left (A rest : List Char) (n : Nat) (h : A.length = n) :
    (A ++ rest).take n = A :=
  List.take_left' h

theorem drop_seg_left (A rest : List Char) (n : Nat) (h : A.length = n) :
    (A ++ rest).drop n = rest :=
  List.drop_left' h

theorem sel_nonempty {content : List Char} {start endPos : Nat}
    (hlt : start < endPos) (hlen : endPos ≤ content.length) :
    (sliceN content start endPos).isEmpty = false := by
  have h := length_sliceN (Nat.le_of_lt hlt) hlen
  rcases heq : sliceN content start endPos with _ | ⟨c, rest⟩
  · rw [heq] at h; simp at h; omega
  · rfl

/-- On a buffer of the shape `A ++ pre ++ sel ++ suf ++ B` with the
selection sitting exactly on `sel`, the first (primary-border)
toggle-off check of `inlineToggle` fires and unwraps the markers. -/
theorem inlineToggle_wrapped (f : String) (fmt : FormatSpec) (A sel B : List Char) :
    inlineToggle (A ++ fmt.pre ++ sel ++ fmt.suffix ++ B)
      (A.length + fmt.pre.length) (A.length + fmt.pre.length + sel.length) f fmt sel =
    some (.commit (A ++ sel ++ B) (A.length : Int)
      ((A.length : Int) + (sel.length : Int))) := by
  have hsub : A.length + fmt.pre.length - fmt.pre.length = A.length := by omega
  have e1 : A ++ fmt.pre ++ sel ++ fmt.suffix ++ B =
      A ++ fmt.pre ++ (sel ++ (fmt.suffix ++ B)) := by simp [List.append_assoc]
  have e2 : A ++ fmt.pre ++ sel ++ fmt.suffix ++ B =
      (A ++ fmt.pre ++ sel) ++ (fmt.suffix ++ B) := by simp [List.append_assoc]
  have e3 : A ++ fmt.pre ++ sel ++ fmt.suffix ++ B =
      A ++ (fmt.pre ++ sel ++ fmt.suffix ++ B) := by simp [List.append_assoc]
  have e4 : A ++ fmt.pre ++ sel ++ fmt.suffix ++ B =
      (A ++ fmt.pre ++ sel ++ fmt.suffix) ++ B := rfl
  have hb : ((A ++ fmt.pre ++ sel ++ fmt.suffix ++ B).take (A.length + fmt.pre.length)).drop
      (A.length + fmt.pre.length - fmt.pre.length) = fmt.pre := by
    rw [hsub, e1]
    have := seg_take_drop A fmt.pre (sel ++ (fmt.suffix ++ B))
    simpa [List.append_assoc] using this
  have hdropE : (A ++ fmt.pre ++ sel ++ fmt.suffix ++ B).drop
      (A.length + fmt.pre.length + sel.length) = fmt.suffix ++ B := by
    rw [e2]
    exact drop_seg_left _ _ _ (by simp; omega)
  have ha : ((A ++ fmt.pre ++ sel ++ fmt.suffix ++ B).drop
      (A.length + fmt.pre.length + sel.length)).take fmt.suffix.length = fmt.suffix := by
    rw [hdropE, List.take_left]
  have ht : (A ++ fmt.pre ++ sel ++ fmt.suffix ++ B).take
      (A.length + fmt.pre.length - fmt.pre.length) = A := by
    rw [hsub, e3]
    exact take_seg_left _ _ _ rfl
  have hd : (A ++ fmt.pre ++ sel ++ fmt.suffix ++ B).drop
      (A.length + fmt.pre.length + sel.length + fmt.suffix.length) = B := by
    rw [e4]
    exact drop_seg_left _ _ _ (by simp; omega)
  simp only [inlineToggle, hb, ha, ht, hd, and_self, if_pos]
  have hs1 : ((A.length + fmt.pre.length : Nat) : Int) - (fmt.pre.length : Int) =
      (A.length : Int) := by push_cast; ring
  have hs2 : ((A.length + fmt.pre.length + sel.length : Nat) : Int) - (fmt.pre.length : Int) =
      (A.length : Int) + (sel.length : Int) := by push_cast; ring
  rw [hs1, hs2]

theorem formats_ne_clear {f : String} {fmt : FormatSpec}
    (hf : formats f = some fmt) : f ≠ "clearFormatting" := by
  intro h; subst h; simp [formats] at hf

theorem formats_ne_paragraph {f : String} {fmt : FormatSpec}
    (hf : formats f = some fmt) (hil : fmt.isLine = false) : f ≠ "paragraph" := by
  intro h; subst h
  rw [show formats "paragraph" = some ⟨[], [], [], true⟩ from rfl] at hf
  simp at hf
  rw [← hf] at hil
  simp at hil

theorem isEmpty_false_of_ne_nil {l : List Char} (h : l ≠ []) : l.isEmpty = false := by
  cases hx : l with
  | nil => exact absurd hx h
  | cons a t => rfl

/-- Control-flow lemma: with a catalogued inline format carrying a
suffix and a non-empty selection, `handleFormat` runs the toggle-off
checks and otherwise falls through to the wrap branch. -/
theorem handleFormat_inline_of_sel (f : String) (fmt : FormatSpec)
    (content : List Char) (start endPos : Nat)
    (hf : formats f = some fmt) (hil : fmt.isLine = false) (hsuf : fmt.suffix ≠ [])
    (hsel : (sliceN content start endPos).isEmpty = false) :
    handleFormat content start endPos f =
      match inlineToggle content start endPos f fmt (sliceN content start endPos) with
      | some r => r
      | none => applyWrap content start endPos fmt (sliceN content start endPos) := by
  have hbeq : (f == "clearFormatting") = false := by
    simpa using formats_ne_clear hf
  have hbp : (f == "paragraph") = false := by
    simpa using formats_ne_paragraph hf hil
  have hsufB : fmt.suffix.isEmpty = false := isEmpty_false_of_ne_nil hsuf
  simp only [handleFormat, hbeq, Bool.false_eq_true, if_false, hf, hbp, hsel,
    Bool.not_false, if_true, hil, hsufB, Bool.and_self]

/-- Wrap-then-toggle round trip for an arbitrary catalogued inline
format: when the first application takes the wrap path, the second
application (at the returned selection) unwraps and restores buffer and
selection exactly. -/
theorem double_toggle_master (f : String) (fmt : FormatSpec) (content : List Char)
    (start endPos : Nat) (hf : formats f = some fmt) (hil : fmt.isLine = false)
    (hsuf : fmt.suffix ≠ []) (hlt : start < endPos) (hlen : endPos ≤ content.length)
    (htog : inlineToggle content start endPos f fmt (sliceN content start endPos) = none) :
    handleFormat content start endPos f =
      .commit (content.take start ++ fmt.pre ++ sliceN content start endPos ++
        fmt.suffix ++ content.drop endPos)
        ((start + fmt.pre.length : Nat) : Int)
        ((start + fmt.pre.length + (endPos - start) : Nat) : Int) ∧
    handleFormat (content.take start ++ fmt.pre ++ sliceN content start endPos ++
        fmt.suffix ++ content.drop endPos)
      (start + fmt.pre.length) (start + fmt.pre.length + (endPos - start)) f =
      .commit content (start : Int) (endPos : Int) := by
  have hse : start ≤ endPos := Nat.le_of_lt hlt
  have hselne : (sliceN content start endPos).isEmpty = false := sel_nonempty hlt hlen
  have hA : (content.take start).length = start :=
    length_take_of_le (Nat.le_trans hse hlen)
  have hL : (sliceN content start endPos).length = endPos - start := length_sliceN hse hlen
  constructor
  · rw [handleFormat_inline_of_sel f fmt content start endPos hf hil hsuf hselne, htog]
    simp only [applyWrap, hselne, Bool.false_eq_true, if_false, hL]
  · have hsel1 : sliceN (content.take start ++ fmt.pre ++ sliceN content start endPos ++
        fmt.suffix ++ content.drop endPos)
        (start + fmt.pre.length) (start + fmt.pre.length + (endPos - start)) =
        sliceN content start endPos := by
      have h := sliceN_of_append (content.take start ++ fmt.pre)
        (sliceN content start endPos) (fmt.suffix ++ content.drop endPos)
      simp only [List.length_append, hA, hL] at h
      simpa [List.append_assoc] using h
    have hselne1 : (sliceN (content.take start ++ fmt.pre ++ sliceN content start endPos ++
        fmt.suffix ++ content.drop endPos)
        (start + fmt.pre.length) (start + fmt.pre.length + (endPos - start))).isEmpty = false := by
      rw [hsel1]; exact hselne
    rw [handleFormat_inline_of_sel f fmt _ _ _ hf hil hsuf hselne1, hsel1]
    have htw := inlineToggle_wrapped f fmt (content.take start)
      (sliceN content start endPos) (content.drop endPos)
    rw [hA, hL] at htw
    rw [htw]
    have hbuf : content.take start ++ sliceN content start endPos ++ content.drop endPos =
        content := (sliceN_decomp hse hlen).symm
    rw [hbuf]
    show FormatResult.commit content ((start : Int)) ((start : Int) + ((endPos - start : Nat) : Int)) =
      FormatResult.commit content (start : Int) (endPos : Int)
    congr 1
    omega

/-- C1 (amended): for each of the seven inline toggle formats and any
valid non-empty selection on which the first application takes the wrap
(toggle-on) path — none of the toggle-off checks fire — applying the
format and then applying it again on the returned selection restores
the original buffer and the original selection `[start, endPos)`
exactly. -/
theorem inline_double_toggle (f : String) (content : List Char) (start endPos : Nat)
    (hf : f ∈ ["bold", "italic", "code", "strikethrough", "subscript", "superscript", "highlight"])
    (hlt : start < endPos) (hlen : endPos ≤ content.length)
    (htog : inlineToggle content start endPos f (fmtOf f) (sliceN content start endPos) = none) :
    handleFormat content start endPos f =
      .commit (content.take start ++ (fmtOf f).pre ++ sliceN content start endPos ++
        (fmtOf f).suffix ++ content.drop endPos)
        ((start + (fmtOf f).pre.length : Nat) : Int)
        ((start + (fmtOf f).pre.length + (endPos - start) : Nat) : Int) ∧
    handleFormat (content.take start ++ (fmtOf f).pre ++ sliceN content start endPos ++
        (fmtOf f).suffix ++ content.drop endPos)
      (start + (fmtOf f).pre.length) (start + (fmtOf f).pre.length + (endPos - start)) f =
      .commit content (start : Int) (endPos : Int) := by
  simp only [List.mem_cons, List.not_mem_nil, or_false] at hf
  rcases hf with h | h | h | h | h | h | h <;> subst h <;>
    exact double_toggle_master _ _ content start endPos rfl rfl (by decide) hlt hlen htog

/-- C1 counterexample: on the buffer `"****ab****"` with selection
`[4, 6)` the first `bold` application is itself a toggle-off, and the
second application toggles off again, ending at `"ab"` — neither the
original buffer nor the original selection is restored. -/
theorem inline_double_toggle_counterexample :
    handleFormat "****ab****".toList 4 6 "bold" = .commit "**ab**".toList 2 4 ∧
    handleFormat "**ab**".toList 2 4 "bold" = .commit "ab".toList 0 2 ∧
    ("ab".toList ≠ "****ab****".toList ∧ (0 : Int) ≠ 4) := by
  refine ⟨by decide, by decide, by decide, by decide⟩

/-- C1 witness: the amended round trip evaluated at `"ab"`, selection
`[0, 2)`, format `bold`. -/
theorem inline_double_toggle_witness :
    handleFormat "ab".toList 0 2 "bold" =
      .commit ("ab".toList.take 0 ++ (fmtOf "bold").pre ++ sliceN "ab".toList 0 2 ++
        (fmtOf "bold").suffix ++ "ab".toList.drop 2)
        ((0 + (fmtOf "bold").pre.length : Nat) : Int)
        ((0 + (fmtOf "bold").pre.length + (2 - 0) : Nat) : Int) ∧
    handleFormat ("ab".toList.take 0 ++ (fmtOf "bold").pre ++ sliceN "ab".toList 0 2 ++
        (fmtOf "bold").suffix ++ "ab".toList.drop 2)
      (0 + (fmtOf "bold").pre.length) (0 + (fmtOf "bold").pre.length + (2 - 0)) "bold" =
      .commit "ab".toList (0 : Int) (2 : Int) :=
  inline_double_toggle "bold" "ab".toList 0 2 (by decide) (by decide) (by decide) (by decide)

/-- Control-flow lemma: with a catalogued non-line format and an empty
selection, `handleFormat` goes straight to the insertion branch. -/
theorem handleFormat_empty_insert (f : String) (fmt : FormatSpec)
    (content : List Char) (start endPos : Nat)
    (hf : formats f = some fmt) (hil : fmt.isLine = false)
    (hE : (sliceN content start endPos).isEmpty = true) :
    handleFormat content start endPos f =
      applyWrap content start endPos fmt (sliceN content start endPos) := by
  have hbeq : (f == "clearFormatting") = false := by
    simpa using formats_ne_clear hf
  have hbp : (f == "paragraph") = false := by
    simpa using formats_ne_paragraph hf hil
  simp only [handleFormat, hbeq, Bool.false_eq_true, if_false, hf, hbp, hE,
    Bool.not_true, hil]

/-- C9: for every catalogued inline (non-line-prefix) format and an
empty selection `[start, start)`, `handleFormat` inserts
`prefix + placeholder + suffix` at the caret and returns the selection
spanning exactly the placeholder. -/
theorem inline_empty_selection_insert (f : String) (fmt : FormatSpec)
    (content : List Char) (start : Nat)
    (hf : formats f = some fmt) (hil : fmt.isLine = false) :
    handleFormat content start start f =
      .commit (content.take start ++ fmt.pre ++ fmt.placeholder ++ fmt.suffix ++
        content.drop start)
        ((start + fmt.pre.length : Nat) : Int)
        ((start + fmt.pre.length + fmt.placeholder.length : Nat) : Int) := by
  have hE : (sliceN content start start).isEmpty = true := by
    rw [sliceN_self_empty]; rfl
  rw [handleFormat_empty_insert f fmt content start start hf hil hE]
  simp only [applyWrap, hE, if_true]

/-- C9 witness: the insertion property evaluated for `bold` on the
buffer `"xy"` with the caret at offset 1. -/
theorem inline_empty_selection_insert_witness :
    handleFormat "xy".toList 1 1 "bold" =
      .commit ("xy".toList.take 1 ++ (fmtOf "bold").pre ++ (fmtOf "bold").placeholder ++
        (fmtOf "bold").suffix ++ "xy".toList.drop 1)
        ((1 + (fmtOf "bold").pre.length : Nat) : Int)
        ((1 + (fmtOf "bold").pre.length + (fmtOf "bold").placeholder.length : Nat) : Int) :=
  inline_empty_selection_insert "bold" (fmtOf "bold") "xy".toList 1 rfl rfl

/-- C5: applying `orderedList` over the three plain lines `"a\nb\nc"`
prefixes them `1.`/`2.`/`3.`; re-applying it on the returned selection
strips the prefixes again; and existing numbers are renumbered from 1
(`"7. a\nb"` becomes `"1. a\n2. b"`). -/
theorem ordered_list_roundtrip :
    handleFormat "a\nb\nc".toList 0 5 "orderedList" =
      .commit "1. a\n2. b\n3. c".toList 0 14 ∧
    handleFormat "1. a\n2. b\n3. c".toList 0 14 "orderedList" =
      .commit "a\nb\nc".toList 0 5 ∧
    handleFormat "7. a\nb".toList 0 6 "orderedList" =
      .commit "1. a\n2. b".toList 0 9 := by
  refine ⟨by decide, by decide, by decide⟩

/-- C6: clear formatting on the full span of
`"**bold** and [link](http://x) and `code`"` yields
`"bold and link and code"` in place of the selection, with the new
selection covering exactly the cleared text. -/
theorem clear_formatting_example :
    handleFormat "**bold** and [link](http://x) and `code`".toList 0 40 "clearFormatting" =
      .commit "bold and link and code".toList 0 22 := by decide

/-! ### Detection-after-application lemmas -/

theorem beforeSel_shape (A m rest : List Char) (hm10 : m.length ≤ 10) :
    ∃ A2 : List Char,
      (((A ++ m ++ rest).take (A.length + m.length)).drop
        (A.length + m.length - min (A.length + m.length) 10)) = A2 ++ m ∧
      ∀ c, A2.getLast? = some c → A.getLast? = some c := by
  refine ⟨A.drop (A.length + m.length - min (A.length + m.length) 10), ?_, ?_⟩
  · have h1 : (A ++ m ++ rest).take (A.length + m.length) = A ++ m := by
      have h2 : A ++ m ++ rest = (A ++ m) ++ rest := rfl
      rw [h2]
      exact take_seg_left _ _ _ (by simp)
    rw [h1]
    exact List.drop_append_of_le_length (by omega)
  · intro c hc
    have hne : A.drop (A.length + m.length - min (A.length + m.length) 10) ≠ [] := by
      intro h0; rw [h0] at hc; simp at hc
    have h3 := List.getLast?_append_of_ne_nil
      (A.take (A.length + m.length - min (A.length + m.length) 10)) hne
    rw [List.take_append_drop] at h3
    rw [h3]; exact hc

theorem head?_take_some {B : List Char} {k : Nat} {c : Char}
    (h : (B.take k).head? = some c) : B.head? = some c := by
  cases B with
  | nil => simp at h
  | cons b0 B2 =>
    cases k with
    | zero => simp at h
    | succ k2 => simpa using h

theorem afterSel_shape (X suf B : List Char) (hs10 : suf.length ≤ 10) :
    ∃ B2 : List Char,
      (((X ++ suf ++ B).drop X.length).take
        (min ((X ++ suf ++ B).length - X.length) 10)) = suf ++ B2 ∧
      ∀ c, B2.head? = some c → B.head? = some c := by
  have hd : (X ++ suf ++ B).drop X.length = suf ++ B := by
    have h2 : X ++ suf ++ B = X ++ (suf ++ B) := by simp
    rw [h2]
    exact drop_seg_left _ _ _ rfl
  have hlen : (X ++ suf ++ B).length - X.length = suf.length + B.length := by
    simp
  refine ⟨B.take (min (suf.length + B.length) 10 - suf.length), ?_, ?_⟩
  · rw [hd, hlen]
    have h4 : min (suf.length + B.length) 10 =
        suf.length + (min (suf.length + B.length) 10 - suf.length) := by omega
    conv_lhs => rw [h4]
    rw [List.take_append]
  · intro c hc
    exact head?_take_some hc

theorem isSuffixOf_append_self (A2 m : List Char) : m.isSuffixOf (A2 ++ m) = true := by
  have h : m <:+ A2 ++ m := List.suffix_append A2 m
  exact (List.isSuffixOf_iff_suffix).2 h

theorem isPrefixOf_append_self (m B2 : List Char) : m.isPrefixOf (m ++ B2) = true := by
  have h : m <+: m ++ B2 := List.prefix_append m B2
  exact (List.isPrefixOf_iff_prefix).2 h


theorem bool_eq_false {b : Bool} (h : ¬ b = true) : b = false := by
  cases b
  · rfl
  · exact absurd rfl h

theorem single_prefix_head_false {a : Char} {B2 : List Char}
    (h : B2.head? ≠ some a) : [a].isPrefixOf B2 = false := by
  refine bool_eq_false ?_
  rw [List.isPrefixOf_iff_prefix]
  rintro ⟨t, ht⟩
  apply h
  rw [← ht]
  rfl

theorem not_pair_suffix {a : Char} (b : Char) {A2 : List Char}
    (h : A2.getLast? ≠ some a) : ¬ ([a, b] <:+ A2 ++ [b]) := by
  intro hsuf
  obtain ⟨t, ht⟩ := hsuf
  have h2 : A2 = t ++ [a] := by
    have h5 := congrArg List.dropLast ht
    simpa [List.dropLast_append_of_ne_nil, List.dropLast_concat] using h5.symm
  apply h
  rw [h2, List.getLast?_append_of_ne_nil t (by simp)]
  rfl

/-- Detection after a `bold` wrap: the inserted `**` borders are seen. -/
theorem detect_bold_after_wrap (A T B : List Char) :
    (detectActiveStyles (A ++ ['*','*'] ++ T ++ ['*','*'] ++ B) T
      (A.length + 2) (A.length + 2 + T.length)).bold = true := by
  obtain ⟨A2, hbe, hA2⟩ := beforeSel_shape A ['*','*'] (T ++ (['*','*'] ++ B)) (by decide)
  obtain ⟨B2, haf, hB2⟩ := afterSel_shape (A ++ (['*','*'] ++ T)) ['*','*'] B (by decide)
  simp only [detectActiveStyles]
  simp only [List.append_assoc, List.length_append, List.length_cons, List.length_nil,
    Nat.add_assoc] at hbe haf ⊢
  norm_num at hbe haf ⊢
  ring_nf at hbe haf ⊢
  rw [hbe, haf]
  simp [isSuffixOf_append_self, isPrefixOf_append_self]

/-- Detection after a `strikethrough` wrap. -/
theorem detect_strike_after_wrap (A T B : List Char) :
    (detectActiveStyles (A ++ ['~','~'] ++ T ++ ['~','~'] ++ B) T
      (A.length + 2) (A.length + 2 + T.length)).strikethrough = true := by
  obtain ⟨A2, hbe, hA2⟩ := beforeSel_shape A ['~','~'] (T ++ (['~','~'] ++ B)) (by decide)
  obtain ⟨B2, haf, hB2⟩ := afterSel_shape (A ++ (['~','~'] ++ T)) ['~','~'] B (by decide)
  simp only [detectActiveStyles]
  simp only [List.append_assoc, List.length_append, List.length_cons, List.length_nil,
    Nat.add_assoc] at hbe haf ⊢
  norm_num at hbe haf ⊢
  ring_nf at hbe haf ⊢
  rw [hbe, haf]
  simp [isSuffixOf_append_self, isPrefixOf_append_self]

/-- Detection after a `subscript` wrap. -/
theorem detect_sub_after_wrap (A T B : List Char) :
    (detectActiveStyles (A ++ ['<','s','u','b','>'] ++ T ++ ['<','/','s','u','b','>'] ++ B) T
      (A.length + 5) (A.length + 5 + T.length)).subscript = true := by
  obtain ⟨A2, hbe, hA2⟩ := beforeSel_shape A ['<','s','u','b','>']
    (T ++ (['<','/','s','u','b','>'] ++ B)) (by decide)
  obtain ⟨B2, haf, hB2⟩ := afterSel_shape (A ++ (['<','s','u','b','>'] ++ T))
    ['<','/','s','u','b','>'] B (by decide)
  simp only [detectActiveStyles]
  simp only [List.append_assoc, List.length_append, List.length_cons, List.length_nil,
    Nat.add_assoc] at hbe haf ⊢
  norm_num at hbe haf ⊢
  ring_nf at hbe haf ⊢
  rw [hbe, haf]
  simp [isSuffixOf_append_self, isPrefixOf_append_self]

/-- Detection after a `superscript` wrap. -/
theorem detect_sup_after_wrap (A T B : List Char) :
    (detectActiveStyles (A ++ ['<','s','u','p','>'] ++ T ++ ['<','/','s','u','p','>'] ++ B) T
      (A.length + 5) (A.length + 5 + T.length)).superscript = true := by
  obtain ⟨A2, hbe, hA2⟩ := beforeSel_shape A ['<','s','u','p','>']
    (T ++ (['<','/','s','u','p','>'] ++ B)) (by decide)
  obtain ⟨B2, haf, hB2⟩ := afterSel_shape (A ++ (['<','s','u','p','>'] ++ T))
    ['<','/','s','u','p','>'] B (by decide)
  simp only [detectActiveStyles]
  simp only [List.append_assoc, List.length_append, List.length_cons, List.length_nil,
    Nat.add_assoc] at hbe haf ⊢
  norm_num at hbe haf ⊢
  ring_nf at hbe haf ⊢
  rw [hbe, haf]
  simp [isSuffixOf_append_self, isPrefixOf_append_self]

/-- Detection after a `highlight` wrap. -/
theorem detect_mark_after_wrap (A T B : List Char) :
    (detectActiveStyles (A ++ ['<','m','a','r','k','>'] ++ T ++ ['<','/','m','a','r','k','>'] ++ B) T
      (A.length + 6) (A.length + 6 + T.length)).highlight = true := by
  obtain ⟨A2, hbe, hA2⟩ := beforeSel_shape A ['<','m','a','r','k','>']
    (T ++ (['<','/','m','a','r','k','>'] ++ B)) (by decide)
  obtain ⟨B2, haf, hB2⟩ := afterSel_shape (A ++ (['<','m','a','r','k','>'] ++ T))
    ['<','/','m','a','r','k','>'] B (by decide)
  simp only [detectActiveStyles]
  simp only [List.append_assoc, List.length_append, List.length_cons, List.length_nil,
    Nat.add_assoc] at hbe haf ⊢
  norm_num at hbe haf ⊢
  ring_nf at hbe haf ⊢
  rw [hbe, haf]
  simp [isSuffixOf_append_self, isPrefixOf_append_self]

/-- Detection after an `italic` wrap, provided the characters adjacent
to the inserted single `*` markers are not themselves `*`. -/
theorem detect_italic_after_wrap (A T B : List Char)
    (hA : A.getLast? ≠ some '*') (hB : B.head? ≠ some '*') :
    (detectActiveStyles (A ++ ['*'] ++ T ++ ['*'] ++ B) T
      (A.length + 1) (A.length + 1 + T.length)).italic = true := by
  obtain ⟨A2, hbe, hA2⟩ := beforeSel_shape A ['*'] (T ++ (['*'] ++ B)) (by decide)
  obtain ⟨B2, haf, hB2⟩ := afterSel_shape (A ++ (['*'] ++ T)) ['*'] B (by decide)
  have hA2x : A2.getLast? ≠ some '*' := fun h => hA (hA2 _ h)
  have hB2x : B2.head? ≠ some '*' := fun h => hB (hB2 _ h)
  simp only [detectActiveStyles]
  simp only [List.append_assoc, List.length_append, List.length_cons, List.length_nil,
    Nat.add_assoc] at hbe haf ⊢
  norm_num at hbe haf ⊢
  ring_nf at hbe haf ⊢
  rw [hbe, haf]
  have hs1 : ['*','*'].isSuffixOf (A2 ++ ['*']) = false := by
    refine bool_eq_false ?_
    rw [List.isSuffixOf_iff_suffix]
    exact not_pair_suffix '*' hA2x
  have hs2 : ['*'].isPrefixOf B2 = false := single_prefix_head_false hB2x
  simp [isSuffixOf_append_self, isPrefixOf_append_self, hs1, hs2]

/-- Detection after a `code` wrap, provided the characters adjacent to
the inserted backticks are not themselves backticks. -/
theorem detect_code_after_wrap (A T B : List Char)
    (hA : A.getLast? ≠ some btick) (hB : B.head? ≠ some btick) :
    (detectActiveStyles (A ++ [btick] ++ T ++ [btick] ++ B) T
      (A.length + 1) (A.length + 1 + T.length)).code = true := by
  obtain ⟨A2, hbe, hA2⟩ := beforeSel_shape A [btick] (T ++ ([btick] ++ B)) (by decide)
  obtain ⟨B2, haf, hB2⟩ := afterSel_shape (A ++ ([btick] ++ T)) [btick] B (by decide)
  have hA2x : A2.getLast? ≠ some btick := fun h => hA (hA2 _ h)
  have hB2x : B2.head? ≠ some btick := fun h => hB (hB2 _ h)
  simp only [detectActiveStyles]
  simp only [List.append_assoc, List.length_append, List.length_cons, List.length_nil,
    Nat.add_assoc] at hbe haf ⊢
  norm_num at hbe haf ⊢
  ring_nf at hbe haf ⊢
  rw [hbe, haf]
  have hs1 : [btick, btick].isSuffixOf (A2 ++ [btick]) = false := by
    refine bool_eq_false ?_
    rw [List.isSuffixOf_iff_suffix]
    exact not_pair_suffix btick hA2x
  have hs2 : [btick].isPrefixOf B2 = false := single_prefix_head_false hB2x
  simp [isSuffixOf_append_self, isPrefixOf_append_self, hs1, hs2]

/-- The `textToFormat` local of the insertion branch: the selection, or
the placeholder when the selection is empty. -/
def textToFormatOf (fmt : FormatSpec) (selectedText : List Char) : List Char :=
  if selectedText.isEmpty then fmt.placeholder else selectedText

/-- C2 (amended): for each of the seven inline toggle formats, whenever
`handleFormat` takes the insertion (toggle-on) path — always for an
empty selection, and for a non-empty selection when no toggle-off check
fires — and, for `italic` and `code` only, the buffer characters
adjacent to the inserted markers do not extend them into a double
marker, then `detectActiveStyles` on the returned buffer and selection
reports the format as active. -/
theorem detect_after_apply (f : String) (content : List Char) (start endPos : Nat)
    (hf : f ∈ ["bold", "italic", "code", "strikethrough", "subscript", "superscript", "highlight"])
    (hse : start ≤ endPos) (hlen : endPos ≤ content.length)
    (hpath : sliceN content start endPos = [] ∨
      inlineToggle content start endPos f (fmtOf f) (sliceN content start endPos) = none)
    (hadjI : f = "italic" → (content.take start).getLast? ≠ some '*' ∧
      (content.drop endPos).head? ≠ some '*')
    (hadjC : f = "code" → (content.take start).getLast? ≠ some btick ∧
      (content.drop endPos).head? ≠ some btick) :
    handleFormat content start endPos f =
      .commit (content.take start ++ (fmtOf f).pre ++
        textToFormatOf (fmtOf f) (sliceN content start endPos) ++
        (fmtOf f).suffix ++ content.drop endPos)
        ((start + (fmtOf f).pre.length : Nat) : Int)
        ((start + (fmtOf f).pre.length +
          (textToFormatOf (fmtOf f) (sliceN content start endPos)).length : Nat) : Int) ∧
    (detectActiveStyles
      (content.take start ++ (fmtOf f).pre ++
        textToFormatOf (fmtOf f) (sliceN content start endPos) ++
        (fmtOf f).suffix ++ content.drop endPos)
      (textToFormatOf (fmtOf f) (sliceN content start endPos))
      (start + (fmtOf f).pre.length)
      (start + (fmtOf f).pre.length +
        (textToFormatOf (fmtOf f) (sliceN content start endPos)).length)).hasStyle f =
      true := by
  have hA : (content.take start).length = start :=
    length_take_of_le (Nat.le_trans hse hlen)
  have hwrapgen : ∀ g : String, g = f → formats g = some (fmtOf g) →
      (fmtOf g).isLine = false → (fmtOf g).suffix ≠ [] →
      handleFormat content start endPos g =
        applyWrap content start endPos (fmtOf g) (sliceN content start endPos) := by
    intro g hg hfmt hl hs
    cases hE : (sliceN content start endPos).isEmpty with
    | true => exact handleFormat_empty_insert _ _ _ _ _ hfmt hl hE
    | false =>
      subst hg
      rcases hpath with he | htog
      · rw [he] at hE; simp at hE
      · rw [handleFormat_inline_of_sel _ _ _ _ _ hfmt hl hs hE, htog]
  simp only [List.mem_cons, List.not_mem_nil, or_false] at hf
  rcases hf with h | h | h | h | h | h | h <;> subst h
  · refine ⟨by rw [hwrapgen _ rfl rfl rfl (by decide)]; rfl, ?_⟩
    have hd := detect_bold_after_wrap (content.take start)
      (textToFormatOf (fmtOf "bold") (sliceN content start endPos)) (content.drop endPos)
    rw [hA] at hd
    exact hd
  · obtain ⟨ha1, ha2⟩ := hadjI rfl
    refine ⟨by rw [hwrapgen _ rfl rfl rfl (by decide)]; rfl, ?_⟩
    have hd := detect_italic_after_wrap (content.take start)
      (textToFormatOf (fmtOf "italic") (sliceN content start endPos)) (content.drop endPos)
      ha1 ha2
    rw [hA] at hd
    exact hd
  · obtain ⟨ha1, ha2⟩ := hadjC rfl
    refine ⟨by rw [hwrapgen _ rfl rfl rfl (by decide)]; rfl, ?_⟩
    have hd := detect_code_after_wrap (content.take start)
      (textToFormatOf (fmtOf "code") (sliceN content start endPos)) (content.drop endPos)
      ha1 ha2
    rw [hA] at hd
    exact hd
  · refine ⟨by rw [hwrapgen _ rfl rfl rfl (by decide)]; rfl, ?_⟩
    have hd := detect_strike_after_wrap (content.take start)
      (textToFormatOf (fmtOf "strikethrough") (sliceN content start endPos)) (content.drop endPos)
    rw [hA] at hd
    exact hd
  · refine ⟨by rw [hwrapgen _ rfl rfl rfl (by decide)]; rfl, ?_⟩
    have hd := detect_sub_after_wrap (content.take start)
      (textToFormatOf (fmtOf "subscript") (sliceN content start endPos)) (content.drop endPos)
    rw [hA] at hd
    exact hd
  · refine ⟨by rw [hwrapgen _ rfl rfl rfl (by decide)]; rfl, ?_⟩
    have hd := detect_sup_after_wrap (content.take start)
      (textToFormatOf (fmtOf "superscript") (sliceN content start endPos)) (content.drop endPos)
    rw [hA] at hd
    exact hd
  · refine ⟨by rw [hwrapgen _ rfl rfl rfl (by decide)]; rfl, ?_⟩
    have hd := detect_mark_after_wrap (content.take start)
      (textToFormatOf (fmtOf "highlight") (sliceN content start endPos)) (content.drop endPos)
    rw [hA] at hd
    exact hd

/-- C2 counterexample: wrapping `"X"` in `"*X"` with `italic` produces
`"**X*"`; the detector then sees a double `*` on the left and reports
no italic — applying a format does not always make it detected. -/
theorem detect_after_apply_counterexample :
    handleFormat "*X".toList 1 2 "italic" = .commit "**X*".toList 2 3 ∧
    (detectActiveStyles "**X*".toList "X".toList 2 3).hasStyle "italic" = false := by
  refine ⟨by decide, by decide⟩

/-- C2 witness: the amended detection property evaluated for `bold` on
`"xy"` with the full buffer selected. -/
theorem detect_after_apply_witness :
    handleFormat "xy".toList 0 2 "bold" =
      .commit ("xy".toList.take 0 ++ (fmtOf "bold").pre ++
        textToFormatOf (fmtOf "bold") (sliceN "xy".toList 0 2) ++
        (fmtOf "bold").suffix ++ "xy".toList.drop 2)
        ((0 + (fmtOf "bold").pre.length : Nat) : Int)
        ((0 + (fmtOf "bold").pre.length +
          (textToFormatOf (fmtOf "bold") (sliceN "xy".toList 0 2)).length : Nat) : Int) ∧
    (detectActiveStyles
      ("xy".toList.take 0 ++ (fmtOf "bold").pre ++
        textToFormatOf (fmtOf "bold") (sliceN "xy".toList 0 2) ++
        (fmtOf "bold").suffix ++ "xy".toList.drop 2)
      (textToFormatOf (fmtOf "bold") (sliceN "xy".toList 0 2))
      (0 + (fmtOf "bold").pre.length)
      (0 + (fmtOf "bold").pre.length +
        (textToFormatOf (fmtOf "bold") (sliceN "xy".toList 0 2)).length)).hasStyle "bold" =
      true :=
  detect_after_apply "bold" "xy".toList 0 2 (by decide) (by decide) (by decide)
    (Or.inr (by decide)) (fun h => absurd h (by decide)) (fun h => absurd h (by decide))

/-! ### Line-scan characterizations -/

theorem mem_of_getElem_opt {l : List Char} {n : Nat} {a : Char}
    (h : l[n]? = some a) : a ∈ l := by
  have h1 : n < l.length := by
    by_contra hc
    rw [List.getElem?_eq_none (by omega)] at h
    exact Option.noConfusion h
  rw [List.getElem?_eq_getElem h1] at h
  have h2 := Option.some.inj h
  rw [← h2]
  exact List.getElem_mem h1

theorem lineStartAux_spec (P Q : List Char) (hP : P = [] ∨ P.getLast? = some '\n') :
    ∀ n, P.length ≤ n →
      (∀ i, P.length ≤ i → i < n → (P ++ Q)[i]? ≠ some '\n') →
      lineStartAux (P ++ Q) n = P.length := by
  intro n
  induction n with
  | zero =>
    intro hle _
    have hP0 : P.length = 0 := Nat.le_zero.1 hle
    simp [lineStartAux, hP0]
  | succ n ih =>
    intro hle hmid
    rcases Nat.eq_or_lt_of_le hle with heq | hlt
    · have hPne : P ≠ [] := by
        intro h0
        rw [h0] at heq
        simp at heq
    
      have hn : (P ++ Q)[n]? = some '\n' := by
        have hlen : n < P.length := by omega
        rw [List.getElem?_append_left hlen]
        have hgl : P[n]? = P.getLast? := by
          rw [List.getLast?_eq_getElem? P]
          congr 1
          omega
        rw [hgl]
        rcases hP with h0 | h0
        · exact absurd h0 hPne
        · exact h0
      simp [lineStartAux, hn, heq]
    · have hle2 : P.length ≤ n := by omega
      have hn : ((P ++ Q)[n]? == some '\n') = false := by
        have := hmid n hle2 (Nat.lt_succ_self n)
        simpa using this
      simp only [lineStartAux, hn, Bool.false_eq_true, if_false]
      exact ih hle2 (fun i hi1 hi2 => hmid i hi1 (Nat.lt_succ_of_lt hi2))

theorem lineEndGo_spec (content : List Char) (E : Nat)
    (hstop : content[E]? = none ∨ content[E]? = some '\n') :
    ∀ fuel p, p ≤ E → E - p ≤ fuel →
      (∀ i, p ≤ i → i < E → ∃ c, content[i]? = some c ∧ c ≠ '\n') →
      lineEndGo content p fuel = E := by
  intro fuel
  induction fuel with
  | zero =>
    intro p h1 h2 _
    have : p = E := by omega
    simpa [lineEndGo] using this
  | succ fuel ih =>
    intro p h1 h2 hmid
    by_cases hpE : p = E
    · subst hpE
      rcases hstop with h0 | h0 <;> simp [lineEndGo, h0]
    · have hlt : p < E := by omega
      obtain ⟨c, hc, hcn⟩ := hmid p (Nat.le_refl p) hlt
      have hcb : (c == '\n') = false := by simpa using hcn
      simp only [lineEndGo, hc, hcb, Bool.false_eq_true, if_false]
      exact ih (p + 1) (by omega) (by omega)
        (fun i hi1 hi2 => hmid i (by omega) hi2)

theorem lineStart_of_decomp (P block S : List Char) (start : Nat)
    (hP : P = [] ∨ P.getLast? = some '\n') (hbl : ∀ c ∈ block, c ≠ '\n')
    (h1 : P.length ≤ start) (h2 : start ≤ P.length + block.length) :
    lineStartAux (P ++ block ++ S) start = P.length := by
  have hassoc : P ++ block ++ S = P ++ (block ++ S) := by simp
  rw [hassoc]
  apply lineStartAux_spec P (block ++ S) hP start h1
  intro i hi1 hi2 hcon
  have hilen : i - P.length < block.length := by omega
  rw [List.getElem?_append_right hi1] at hcon
  rw [List.getElem?_append_left hilen] at hcon
  exact hbl '\n' (mem_of_getElem_opt hcon) rfl

theorem lineEnd_of_decomp (P block S : List Char) (p : Nat)
    (hS : S = [] ∨ S.head? = some '\n') (hbl : ∀ c ∈ block, c ≠ '\n')
    (h1 : P.length ≤ p) (h2 : p ≤ P.length + block.length) :
    lineEndFrom (P ++ block ++ S) p = P.length + block.length := by
  have hPB : (P ++ block).length = P.length + block.length := by simp
  have hstop : (P ++ block ++ S)[P.length + block.length]? = none ∨
      (P ++ block ++ S)[P.length + block.length]? = some '\n' := by
    rcases hS with h0 | h0
    · left
      rw [h0]
      rw [List.getElem?_eq_none]
      simp
    · right
      rw [show P ++ block ++ S = (P ++ block) ++ S from rfl,
        List.getElem?_append_right (by omega), hPB]
      simp only [Nat.sub_self]
      cases hSc : S with
      | nil => rw [hSc] at h0; exact absurd h0 (by simp)
      | cons a t =>
        rw [hSc] at h0
        simpa using h0
  have hlen : (P ++ block ++ S).length = P.length + block.length + S.length := by
    simp
    omega
  apply lineEndGo_spec (P ++ block ++ S) (P.length + block.length) hstop
    ((P ++ block ++ S).length - p) p h2 (by omega)
  intro i hi1 hi2
  have hib : i - P.length < block.length := by omega
  have hiPB : i < (P ++ block).length := by omega
  obtain ⟨c, hc⟩ : ∃ c, block[i - P.length]? = some c :=
    ⟨_, List.getElem?_eq_getElem hib⟩
  refine ⟨c, ?_, hbl c (mem_of_getElem_opt hc)⟩
  rw [show P ++ block ++ S = (P ++ block) ++ S from rfl,
    List.getElem?_append_left hiPB,
    List.getElem?_append_right (by omega : P.length ≤ i)]
  exact hc

/-! ### Heading replacement lemmas -/

theorem takeWhile_replicate_append (c : Char) (p : Char → Bool) (hp : p c = true)
    {w : Char} (hw : p w = false) (L : Nat) (rest : List Char) :
    (List.replicate L c ++ w :: rest).takeWhile p = List.replicate L c := by
  induction L with
  | zero => simp [List.takeWhile_cons, hw]
  | succ L ih => simp [List.replicate_succ, List.takeWhile_cons, hp, ih]

theorem ws_ne_hash {w : Char} (hw : isWS w = true) : (w == '#') = false := by
  cases hx : w == '#'
  · rfl
  · have : w = '#' := (beq_iff_eq).1 hx
    rw [this] at hw
    exact absurd hw (by decide)

theorem pHeading_block {L : Nat} {w : Char} (rest : List Char)
    (hL : 1 ≤ L) (hL6 : L ≤ 6) (hw : isWS w = true) :
    pHeading (List.replicate L '#' ++ w :: rest) =
      some (List.replicate L '#' ++ [w], List.replicate L '#') := by
  have ht : (List.replicate L '#' ++ w :: rest).takeWhile (· == '#') =
      List.replicate L '#' :=
    takeWhile_replicate_append '#' (fun x => x == '#') (by decide) (ws_ne_hash hw) L rest
  have hg : (List.replicate L '#' ++ w :: rest)[(L : Nat)]? = some w := by
    rw [List.getElem?_append_right (by simp)]
    simp
  simp only [pHeading, ht, List.length_replicate]
  rw [if_pos ⟨hL, hL6⟩, hg]
  simp [hw]

theorem firstPat_block {L : Nat} {w : Char} (rest : List Char)
    (hL : 1 ≤ L) (hL6 : L ≤ 6) (hw : isWS w = true) :
    firstPat (List.replicate L '#' ++ w :: rest) =
      some (List.replicate L '#' ++ [w], List.replicate L '#') := by
  simp only [firstPat, pHeading_block rest hL hL6 hw]

theorem splitLines_no_newline {l : List Char} (h : ∀ c ∈ l, c ≠ '\n') :
    splitLines l = [l] := by
  induction l with
  | nil => rfl
  | cons c rest ih =>
    have hc : (c == '\n') = false := by
      cases hx : c == '\n'
      · rfl
      · exact absurd ((beq_iff_eq).1 hx) (h c (List.mem_cons_self c rest))
    have ih2 := ih (fun x hx => h x (List.mem_cons_of_mem c hx))
    simp only [splitLines, hc, Bool.false_eq_true, if_false, ih2]

theorem jsTrimStart_cons_of_neg {c : Char} (l : List Char) (hc : isWS c = false) :
    jsTrimStart (c :: l) = c :: l := by
  simp [jsTrimStart, List.dropWhile_cons, hc]

theorem jsTrim_cons_pos {c : Char} (l : List Char) (hc : isWS c = false) :
    0 < (jsTrim (c :: l)).length := by
  rw [jsTrim, jsTrimStart_cons_of_neg l hc]
  by_contra hcon
  have h0 : jsTrimEnd (c :: l) = [] := by
    cases hx : jsTrimEnd (c :: l)
    · rfl
    · rw [hx] at hcon; simp at hcon
  have h1 : (c :: l).reverse.dropWhile isWS = [] := by
    have := congrArg List.reverse h0
    simpa [jsTrimEnd] using this
  have h2 := List.dropWhile_eq_nil_iff.1 h1 c (by simp)
  rw [h2] at hc
  exact Bool.noConfusion hc

theorem jsTrim_hashes_space (T : Nat) (hT : 1 ≤ T) :
    jsTrim (List.replicate T '#' ++ [' ']) = List.replicate T '#' := by
  obtain ⟨t, rfl⟩ : ∃ t, T = t + 1 := ⟨T - 1, by omega⟩
  rw [jsTrim]
  have h1 : jsTrimStart (List.replicate (t + 1) '#' ++ [' ']) =
      List.replicate (t + 1) '#' ++ [' '] := by
    rw [List.replicate_succ, List.cons_append]
    exact jsTrimStart_cons_of_neg _ (by decide)
  rw [h1, jsTrimEnd, List.reverse_append]
  simp only [List.reverse_cons, List.reverse_nil, List.nil_append, List.singleton_append,
    List.dropWhile_cons]
  rw [if_pos (by decide)]
  rw [List.reverse_replicate]
  have h2 : (List.replicate (t + 1) '#').dropWhile isWS = List.replicate (t + 1) '#' := by
    rw [List.replicate_succ, List.dropWhile_cons]
    rw [if_neg (by decide)]
  rw [h2, List.reverse_replicate]

theorem replicate_hash_nonpref {w : Char} (rest : List Char)
    (hw : (w == '#') = false) :
    ∀ L T : Nat, L < T →
      (List.replicate T '#').isPrefixOf (List.replicate L '#' ++ w :: rest) = false := by
  intro L
  induction L with
  | zero =>
    intro T hT
    obtain ⟨t, rfl⟩ : ∃ t, T = t + 1 := ⟨T - 1, by omega⟩
    have hwx : ('#' == w) = false := by
      cases hx : '#' == w
      · rfl
      · rw [(beq_iff_eq).1 hx] at hw; simp at hw
    simp [List.replicate_succ, List.isPrefixOf, hwx]
  | succ L ih =>
    intro T hT
    obtain ⟨t, rfl⟩ : ∃ t, T = t + 1 := ⟨T - 1, by omega⟩
    have := ih t (by omega)
    simpa [List.replicate_succ, List.isPrefixOf] using this

theorem drop_block_rest (L : Nat) (w : Char) (rest : List Char) :
    (List.replicate L '#' ++ w :: rest).drop (L + 1) = rest := by
  have h1 : List.replicate L '#' ++ w :: rest =
      (List.replicate L '#' ++ [w]) ++ rest := by simp
  rw [h1]
  exact drop_seg_left _ _ _ (by simp)

theorem replicate_head_hash (L : Nat) (hL : 1 ≤ L) :
    (List.replicate L '#').head? = some '#' := by
  obtain ⟨t, rfl⟩ : ∃ t, L = t + 1 := ⟨L - 1, by omega⟩
  simp [List.replicate_succ]

/-- Control-flow lemma: a line-prefix format (other than `paragraph`)
with a non-empty selection runs the multi-line block branch. -/
theorem handleFormat_line_of_sel (f : String) (fmt : FormatSpec)
    (content : List Char) (start endPos : Nat)
    (hf : formats f = some fmt) (hline : fmt.isLine = true) (hnp : f ≠ "paragraph")
    (hsel : (sliceN content start endPos).isEmpty = false) :
    handleFormat content start endPos f = lineBlockApply content start endPos f fmt := by
  have hbeq : (f == "clearFormatting") = false := by
    simpa using formats_ne_clear hf
  have hbp : (f == "paragraph") = false := by simpa using hnp
  simp only [handleFormat, hbeq, Bool.false_eq_true, if_false, hf, hbp, hsel,
    Bool.not_false, if_true, hline, Bool.not_true, Bool.false_and, if_true]

/-- Heading replacement: when the current line carries a heading of a
strictly lower level than the target, the line-prefix branch replaces
only the heading prefix and re-anchors the selection to the whole line
block. -/
theorem heading_replace_master (f : String) (fmt : FormatSpec)
    (P S rest : List Char) (w : Char) (L T start endPos : Nat)
    (hf : formats f = some fmt) (hline : fmt.isLine = true)
    (hpre : fmt.pre = List.replicate T '#' ++ [' '])
    (hnp : f ≠ "paragraph") (hford : (f == "orderedList") = false)
    (hP : P = [] ∨ P.getLast? = some '\n') (hS : S = [] ∨ S.head? = some '\n')
    (hw : isWS w = true) (hnl : '\n' ∉ w :: rest)
    (hL : 1 ≤ L) (hLT : L < T) (hT6 : T ≤ 6)
    (hstart : P.length ≤ start) (hlt : start < endPos)
    (hend : endPos ≤ P.length + (List.replicate L '#' ++ w :: rest).length) :
    handleFormat (P ++ (List.replicate L '#' ++ w :: rest) ++ S) start endPos f =
      .commit (P ++ (List.replicate T '#' ++ ' ' :: rest) ++ S)
        (P.length : Int)
        ((P.length : Int) + ((List.replicate L '#' ++ w :: rest).length : Int) +
          ((T : Int) - (L : Int))) := by
  have hbl : ∀ c ∈ List.replicate L '#' ++ w :: rest, c ≠ '\n' := by
    intro c hc
    rcases List.mem_append.1 hc with h0 | h0
    · rw [List.eq_of_mem_replicate h0]; decide
    · intro he; rw [he] at h0; exact hnl h0
  have hblen : (List.replicate L '#' ++ w :: rest).length = L + 1 + rest.length := by
    simp; omega
  have hclen : (P ++ (List.replicate L '#' ++ w :: rest) ++ S).length =
      P.length + (L + 1 + rest.length) + S.length := by
    simp; omega
  have hselne : (sliceN (P ++ (List.replicate L '#' ++ w :: rest) ++ S) start endPos).isEmpty
      = false := sel_nonempty hlt (by omega)
  rw [handleFormat_line_of_sel f fmt _ start endPos hf hline hnp hselne]
  simp only [lineBlockApply]
  rw [lineStart_of_decomp P _ S start hP hbl hstart (by omega)]
  rw [lineEnd_of_decomp P _ S endPos hS hbl (by omega) (by omega)]
  rw [show sliceN (P ++ (List.replicate L '#' ++ w :: rest) ++ S) P.length
      (P.length + (List.replicate L '#' ++ w :: rest).length) =
      List.replicate L '#' ++ w :: rest from sliceN_of_append P _ S]
  rw [splitLines_no_newline hbl]
  have hcons : List.replicate L '#' ++ w :: rest =
      '#' :: (List.replicate (L - 1) '#' ++ w :: rest) := by
    obtain ⟨t, rfl⟩ : ∃ t, L = t + 1 := ⟨L - 1, by omega⟩
    simp [List.replicate_succ]
  have htrim : 0 < (jsTrim (List.replicate L '#' ++ w :: rest)).length := by
    rw [hcons]
    exact jsTrim_cons_pos _ (by decide)
  have hfil : [List.replicate L '#' ++ w :: rest].filter
      (fun l => decide (0 < (jsTrim l).length)) = [List.replicate L '#' ++ w :: rest] := by
    simp [List.filter, htrim]
  rw [hfil]
  have hallHave : (decide (0 < [List.replicate L '#' ++ w :: rest].length) &&
      [List.replicate L '#' ++ w :: rest].all (fun line =>
        if (f == "orderedList") = true then (pOrdered line).isSome
        else (jsTrim fmt.pre).isPrefixOf (jsTrimStart line))) = false := by
    simp only [hford, Bool.false_eq_true, if_false, List.all_cons, List.all_nil,
      Bool.and_true]
    rw [hpre, jsTrim_hashes_space T (by omega), hcons,
      jsTrimStart_cons_of_neg _ (by decide), ← hcons]
    rw [replicate_hash_nonpref rest (ws_ne_hash hw) L T hLT]
    simp
  rw [hallHave]
  have hproc : processLines f fmt false 1 [List.replicate L '#' ++ w :: rest] =
      [fmt.pre ++ rest] := by
    simp only [processLines]
    rw [if_neg (by omega : ¬(jsTrim (List.replicate L '#' ++ w :: rest)).length = 0)]
    simp only [Bool.false_eq_true, if_false, firstPat_block rest hL (by omega) hw,
      hford]
    rw [if_neg (fun hcon => hcon.2.1 (replicate_head_hash L hL))]
    simp only [List.nil_append]
    rw [show (List.replicate L '#' ++ [w]).length = L + 1 by simp]
    rw [drop_block_rest L w rest]
  rw [hproc]
  have hjoin : joinLines [fmt.pre ++ rest] = fmt.pre ++ rest := rfl
  rw [hjoin]
  have htake : (P ++ (List.replicate L '#' ++ w :: rest) ++ S).take P.length = P := by
    rw [show P ++ (List.replicate L '#' ++ w :: rest) ++ S =
      P ++ ((List.replicate L '#' ++ w :: rest) ++ S) by simp]
    exact take_seg_left _ _ _ rfl
  have hdrop : (P ++ (List.replicate L '#' ++ w :: rest) ++ S).drop
      (P.length + (List.replicate L '#' ++ w :: rest).length) = S := by
    exact drop_seg_left _ _ _ (by simp)
  rw [htake, hdrop]
  congr 1
  · simp [hpre, List.append_assoc]
  · rw [hpre]
    simp only [List.length_append, List.length_replicate, List.length_cons,
      List.length_nil]
    push_cast
    omega

/-- C3 (amended): for a non-empty selection inside a single line that
starts with a heading prefix of strictly lower level `L` than the
target heading `hT` (`L < T`), `handleFormat` replaces only the heading
prefix, preserving the remainder of the line, and re-anchors the
selection to the whole line block: start at the line start, end at the
old line end shifted by the prefix-length delta `T - L`.  (When
`L ≥ T` the branch instead strips the heading — see the
counterexample.) -/
theorem heading_prefix_replace (f : String) (T : Nat) (P S rest : List Char) (w : Char)
    (L start endPos : Nat)
    (hfT : (f = "h1" ∧ T = 1) ∨ (f = "h2" ∧ T = 2) ∨ (f = "h3" ∧ T = 3) ∨
      (f = "h4" ∧ T = 4) ∨ (f = "h5" ∧ T = 5) ∨ (f = "h6" ∧ T = 6))
    (hP : P = [] ∨ P.getLast? = some '\n') (hS : S = [] ∨ S.head? = some '\n')
    (hw : isWS w = true) (hnl : '\n' ∉ w :: rest)
    (hL : 1 ≤ L) (hLT : L < T)
    (hstart : P.length ≤ start) (hlt : start < endPos)
    (hend : endPos ≤ P.length + (List.replicate L '#' ++ w :: rest).length) :
    handleFormat (P ++ (List.replicate L '#' ++ w :: rest) ++ S) start endPos f =
      .commit (P ++ (List.replicate T '#' ++ ' ' :: rest) ++ S)
        (P.length : Int)
        ((P.length : Int) + ((List.replicate L '#' ++ w :: rest).length : Int) +
          ((T : Int) - (L : Int))) := by
  rcases hfT with ⟨hf1, hT1⟩ | ⟨hf1, hT1⟩ | ⟨hf1, hT1⟩ | ⟨hf1, hT1⟩ | ⟨hf1, hT1⟩ | ⟨hf1, hT1⟩ <;>
    subst hf1 <;> subst hT1 <;>
    exact heading_replace_master _ _ P S rest w L _ start endPos rfl rfl (by decide)
      (by decide) (by decide) hP hS hw hnl hL hLT (by decide) hstart hlt hend

/-- C3 counterexample: applying `h1` to the `h2` line `"## abc"` does
not replace the prefix with `"# "`: the branch treats the existing
(deeper) heading as already carrying the target prefix and strips it
entirely, and the selection is re-anchored to the whole line rather
than shifted by the prefix-length delta. -/
theorem heading_prefix_replace_counterexample :
    handleFormat "## abc".toList 3 4 "h1" = .commit "abc".toList 0 3 ∧
    handleFormat "## abc".toList 3 4 "h1" ≠ .commit "# abc".toList 2 3 := by
  refine ⟨by decide, by decide⟩

/-- C3 witness: replacing the `h1` prefix of `"# x"` by `h2`. -/
theorem heading_prefix_replace_witness :
    handleFormat (([] : List Char) ++ (List.replicate 1 '#' ++ ' ' :: "x".toList) ++
        ([] : List Char)) 0 1 "h2" =
      .commit (([] : List Char) ++ (List.replicate 2 '#' ++ ' ' :: "x".toList) ++
        ([] : List Char))
        ((([] : List Char).length : Int))
        ((([] : List Char).length : Int) +
          ((List.replicate 1 '#' ++ ' ' :: "x".toList).length : Int) +
          ((2 : Int) - (1 : Int))) :=
  heading_prefix_replace "h2" 2 [] [] "x".toList ' ' 1 0 1
    (Or.inr (Or.inl ⟨rfl, rfl⟩)) (Or.inl rfl) (Or.inl rfl) (by decide) (by decide)
    (by decide) (by decide) (by decide) (by decide) (by decide)

/-! ### Line-level style exclusivity -/

/-- Count of line-anchored styles reported in a style set. -/
def b2n (b : Bool) : Nat := if b then 1 else 0

/-- Number of members of `{h1..h6, quote, list, orderedList, task,
paragraph}` present in a style set. -/
def lineStyleCount (s : StyleSet) : Nat :=
  b2n s.h1 + b2n s.h2 + b2n s.h3 + b2n s.h4 + b2n s.h5 + b2n s.h6 +
  b2n s.quote + b2n s.list + b2n s.orderedList + b2n s.task + b2n s.paragraph

/-- Number of members of `{h1..h6, paragraph}` present in a style set. -/
def headParaCount (s : StyleSet) : Nat :=
  b2n s.h1 + b2n s.h2 + b2n s.h3 + b2n s.h4 + b2n s.h5 + b2n s.h6 + b2n s.paragraph

theorem getElem_zero_head (l : List Char) : l[0]? = l.head? := by
  cases l <;> simp

theorem takeWhile_pos_head {p : Char → Bool} {l : List Char}
    (h : 0 < (l.takeWhile p).length) : ∃ c t, l = c :: t ∧ p c = true := by
  cases l with
  | nil => simp at h
  | cons c t =>
    by_cases hc : p c = true
    · exact ⟨c, t, rfl, hc⟩
    · rw [List.takeWhile_cons, if_neg (by simpa using hc)] at h
      simp at h

theorem takeWhileWS_nil_of_head {l : List Char} {c : Char} (h : l.head? = some c)
    (hc : isWS c = false) : l.takeWhile isWS = [] := by
  cases l with
  | nil => rfl
  | cons a t =>
    have : a = c := by simpa using h
    subst this
    rw [List.takeWhile_cons, if_neg (by simp [hc])]

theorem pQuote_head {l : List Char} (h : (pQuote l).isSome = true) :
    l.head? = some '>' := by
  unfold pQuote at h
  by_cases hg : 1 ≤ (l.takeWhile (· == '>')).length
  · obtain ⟨c, t, rfl, hc⟩ := takeWhile_pos_head hg
    rw [show c = '>' from (beq_iff_eq).1 hc]
    rfl
  · rw [if_neg hg] at h
    simp at h

theorem testHash_head {k : Nat} {l : List Char} (hk : 1 ≤ k)
    (h : testHashHeading k l = true) : l.head? = some '#' := by
  unfold testHashHeading at h
  rw [Bool.and_eq_true] at h
  have h2 : (List.replicate k '#') <+: l := (List.isPrefixOf_iff_prefix).1 h.1
  obtain ⟨t, ht⟩ := h2
  obtain ⟨j, rfl⟩ : ∃ j, k = j + 1 := ⟨k - 1, by omega⟩
  rw [← ht, List.replicate_succ]
  rfl

theorem testHash_false_of_head {l : List Char} {c : Char} {k : Nat} (hk : 1 ≤ k)
    (hc : l.head? = some c) (hne : c ≠ '#') : testHashHeading k l = false := by
  refine bool_eq_false fun hh => ?_
  have := testHash_head hk hh
  rw [hc] at this
  exact hne (Option.some.inj this)

theorem testHash_false_of_first {l : List Char} {b : Char} {k : Nat} (hk : 1 ≤ k)
    (h0 : l[(l.takeWhile isWS).length]? = some b) (hb : b ≠ '#') :
    testHashHeading k l = false := by
  refine bool_eq_false fun hh => ?_
  have hhead := testHash_head hk hh
  rw [takeWhileWS_nil_of_head hhead (by decide)] at h0
  rw [List.length_nil, getElem_zero_head, hhead] at h0
  exact hb (Option.some.inj h0).symm

theorem pBullet_first {l : List Char} (h : (pBullet l).isSome = true) :
    ∃ b, l[(l.takeWhile isWS).length]? = some b ∧ isBulletChar b = true ∧
      l[(l.takeWhile isWS).length + 2]? ≠ some '[' := by
  simp only [pBullet] at h
  rcases h0 : l[(l.takeWhile isWS).length]? with _ | b
  · rw [h0] at h; simp at h
  · rcases h1 : l[(l.takeWhile isWS).length + 1]? with _ | w2
    · rw [h0, h1] at h; simp at h
    · rw [h0, h1] at h
      by_cases hcond : isBulletChar b = true ∧ isWS w2 = true ∧
          l[(l.takeWhile isWS).length + 2]? ≠ some '['
      · exact ⟨b, rfl, hcond.1, hcond.2.2⟩
      · have h6 : (if isBulletChar b = true ∧ isWS w2 = true ∧
            l[(List.takeWhile isWS l).length + 2]? ≠ some '[' then
            some (List.takeWhile isWS l ++ [b, w2], List.takeWhile isWS l)
          else (none : Option (List Char × List Char))).isSome = true := h
        rw [if_neg hcond] at h6
        simp at h6

theorem pTask_first {l : List Char} (h : (pTask l).isSome = true) :
    ∃ b, l[(l.takeWhile isWS).length]? = some b ∧ isBulletChar b = true ∧
      l[(l.takeWhile isWS).length + 2]? = some '[' := by
  simp only [pTask] at h
  rcases h0 : l[(l.takeWhile isWS).length]? with _ | b
  · rw [h0] at h; simp at h
  · rcases h1 : l[(l.takeWhile isWS).length + 1]? with _ | w2
    · rw [h0, h1] at h; simp at h
    · rcases h2 : l[(l.takeWhile isWS).length + 2]? with _ | ob
      · rw [h0, h1, h2] at h; simp at h
      · rcases h3 : l[(l.takeWhile isWS).length + 3]? with _ | m
        · rw [h0, h1, h2, h3] at h; simp at h
        · rcases h4 : l[(l.takeWhile isWS).length + 4]? with _ | cb
          · rw [h0, h1, h2, h3, h4] at h; simp at h
          · rcases h5 : l[(l.takeWhile isWS).length + 5]? with _ | w3
            · rw [h0, h1, h2, h3, h4, h5] at h; simp at h
            · rw [h0, h1, h2, h3, h4, h5] at h
              by_cases hcond : isBulletChar b = true ∧ isWS w2 = true ∧ ob = '[' ∧
                  (m = ' ' ∨ m = 'x' ∨ m = 'X') ∧ cb = ']' ∧ isWS w3 = true
              · refine ⟨b, rfl, hcond.1, ?_⟩
                rw [hcond.2.2.1]
              · have h6 : (if isBulletChar b = true ∧ isWS w2 = true ∧ ob = '[' ∧
                    (m = ' ' ∨ m = 'x' ∨ m = 'X') ∧ cb = ']' ∧ isWS w3 = true then
                    some (List.takeWhile isWS l ++ [b, w2, ob, m, cb, w3],
                      List.takeWhile isWS l)
                  else (none : Option (List Char × List Char))).isSome = true := h
                rw [if_neg hcond] at h6
                simp at h6

theorem pOrdered_first {l : List Char} (h : (pOrdered l).isSome = true) :
    ∃ d, l[(l.takeWhile isWS).length]? = some d ∧ d.isDigit = true := by
  simp only [pOrdered] at h
  by_cases hd : 1 ≤ ((l.drop (l.takeWhile isWS).length).takeWhile Char.isDigit).length
  · obtain ⟨c, t, hct, hc⟩ := takeWhile_pos_head hd
    refine ⟨c, ?_, hc⟩
    have hge := List.getElem?_drop l (l.takeWhile isWS).length 0
    rw [Nat.add_zero] at hge
    rw [← hge, hct]
    simp
  · rw [if_neg hd] at h
    simp at h

theorem pBullet_false_of_first {l : List Char} {d : Char}
    (h0 : l[(l.takeWhile isWS).length]? = some d) (hd : isBulletChar d = false) :
    (pBullet l).isSome = false := by
  refine bool_eq_false fun hh => ?_
  obtain ⟨b, hb0, hb1, _⟩ := pBullet_first hh
  rw [h0] at hb0
  rw [(Option.some.inj hb0)] at hd
  rw [hb1] at hd
  exact Bool.noConfusion hd

theorem pOrdered_false_of_first {l : List Char} {d : Char}
    (h0 : l[(l.takeWhile isWS).length]? = some d) (hd : d.isDigit = false) :
    (pOrdered l).isSome = false := by
  refine bool_eq_false fun hh => ?_
  obtain ⟨e, he0, he1⟩ := pOrdered_first hh
  rw [h0] at he0
  rw [(Option.some.inj he0)] at hd
  rw [he1] at hd
  exact Bool.noConfusion hd

theorem pTask_false_of_first {l : List Char} {d : Char}
    (h0 : l[(l.takeWhile isWS).length]? = some d) (hd : isBulletChar d = false) :
    (pTask l).isSome = false := by
  refine bool_eq_false fun hh => ?_
  obtain ⟨b, hb0, hb1, _⟩ := pTask_first hh
  rw [h0] at hb0
  rw [(Option.some.inj hb0)] at hd
  rw [hb1] at hd
  exact Bool.noConfusion hd

theorem bullet_ne_hash {b : Char} (h : isBulletChar b = true) : b ≠ '#' := by
  intro he
  rw [he] at h
  exact Bool.noConfusion h

theorem bullet_not_digit {b : Char} (h : isBulletChar b = true) : b.isDigit = false := by
  have h2 : (b = '-' ∨ b = '*') ∨ b = '+' := by
    simpa [isBulletChar] using h
  rcases h2 with (h3 | h3) | h3 <;> rw [h3] <;> decide

theorem digit_ne_hash {d : Char} (h : d.isDigit = true) : d ≠ '#' := by
  intro he
  rw [he] at h
  exact Bool.noConfusion h

theorem digit_not_bullet {d : Char} (h : d.isDigit = true) : isBulletChar d = false := by
  cases hx : isBulletChar d
  · rfl
  · rw [bullet_not_digit hx] at h
    exact Bool.noConfusion h

/-- C4 (amended): when the current line is non-blank and the next line
is not a setext underline (all `=` or all `-`), the style set reported
by `detectActiveStyles` contains exactly one element of
`{h1..h6, quote, list, orderedList, task, paragraph}`; and for every
buffer and selection whatsoever it never contains more than one of
`{h1..h6, paragraph}`. -/
theorem detect_line_style_count (content text : List Char) (fro toPos : Nat)
    (hnb : 0 < (jsTrim (fullLineOf content fro toPos)).length)
    (ha1 : testEqUnderline (nextLineOf content toPos) = false)
    (ha2 : testDashUnderline (nextLineOf content toPos) = false) :
    lineStyleCount (detectActiveStyles content text fro toPos) = 1 ∧
    ∀ (content2 text2 : List Char) (fro2 toPos2 : Nat),
      headParaCount (detectActiveStyles content2 text2 fro2 toPos2) ≤ 1 := by
  constructor
  · simp only [detectActiveStyles, lineStyleCount]
    rw [ha1, ha2]
    simp only [Bool.false_and, Bool.or_false]
    set L := fullLineOf content fro toPos with hLdef
    have hnbd : decide (0 < (jsTrim L).length) = true := decide_eq_true hnb
    rw [hnbd]
    by_cases hq : (pQuote L).isSome = true
    · have hhead := pQuote_head hq
      have hws : L.takeWhile isWS = [] := takeWhileWS_nil_of_head hhead (by decide)
      have h0 : L[(L.takeWhile isWS).length]? = some '>' := by
        rw [hws, List.length_nil, getElem_zero_head]
        exact hhead
      have hH : ∀ k, 1 ≤ k → testHashHeading k L = false := fun k hk =>
        testHash_false_of_head hk hhead (by decide)
      rw [hq, hH 1 (by decide), hH 2 (by decide), hH 3 (by decide), hH 4 (by decide),
        hH 5 (by decide), hH 6 (by decide),
        pBullet_false_of_first h0 (by decide),
        pOrdered_false_of_first h0 (by decide),
        pTask_false_of_first h0 (by decide)]
      rfl
    · have hqf : (pQuote L).isSome = false := bool_eq_false hq
      by_cases hbul : (pBullet L).isSome = true
      · obtain ⟨b, h0, hb1, hb2⟩ := pBullet_first hbul
        have hH : ∀ k, 1 ≤ k → testHashHeading k L = false := fun k hk =>
          testHash_false_of_first hk h0 (bullet_ne_hash hb1)
        have hTk : (pTask L).isSome = false := by
          refine bool_eq_false fun ht => ?_
          obtain ⟨b2, h02, hb21, h22⟩ := pTask_first ht
          exact hb2 h22
        rw [hbul, hqf, hH 1 (by decide), hH 2 (by decide), hH 3 (by decide),
          hH 4 (by decide), hH 5 (by decide), hH 6 (by decide),
          pOrdered_false_of_first h0 (bullet_not_digit hb1), hTk]
        rfl
      · have hbf : (pBullet L).isSome = false := bool_eq_false hbul
        by_cases hord : (pOrdered L).isSome = true
        · obtain ⟨d, h0, hd1⟩ := pOrdered_first hord
          have hH : ∀ k, 1 ≤ k → testHashHeading k L = false := fun k hk =>
            testHash_false_of_first hk h0 (digit_ne_hash hd1)
          rw [hord, hqf, hbf, hH 1 (by decide), hH 2 (by decide), hH 3 (by decide),
            hH 4 (by decide), hH 5 (by decide), hH 6 (by decide),
            pTask_false_of_first h0 (digit_not_bullet hd1)]
          rfl
        · have hof : (pOrdered L).isSome = false := bool_eq_false hord
          by_cases htk : (pTask L).isSome = true
          · obtain ⟨b, h0, hb1, _⟩ := pTask_first htk
            have hH : ∀ k, 1 ≤ k → testHashHeading k L = false := fun k hk =>
              testHash_false_of_first hk h0 (bullet_ne_hash hb1)
            rw [htk, hqf, hbf, hof, hH 1 (by decide), hH 2 (by decide),
              hH 3 (by decide), hH 4 (by decide), hH 5 (by decide), hH 6 (by decide)]
            rfl
          · have htf : (pTask L).isSome = false := bool_eq_false htk
            rw [hqf, hbf, hof, htf]
            generalize testHashHeading 1 L = t1
            generalize testHashHeading 2 L = t2
            generalize testHashHeading 3 L = t3
            generalize testHashHeading 4 L = t4
            generalize testHashHeading 5 L = t5
            generalize testHashHeading 6 L = t6
            revert t1 t2 t3 t4 t5 t6
            decide
  · intro content2 text2 fro2 toPos2
    simp only [detectActiveStyles, headParaCount]
    generalize testHashHeading 1 (fullLineOf content2 fro2 toPos2) = t1
    generalize testHashHeading 2 (fullLineOf content2 fro2 toPos2) = t2
    generalize testHashHeading 3 (fullLineOf content2 fro2 toPos2) = t3
    generalize testHashHeading 4 (fullLineOf content2 fro2 toPos2) = t4
    generalize testHashHeading 5 (fullLineOf content2 fro2 toPos2) = t5
    generalize testHashHeading 6 (fullLineOf content2 fro2 toPos2) = t6
    generalize (testEqUnderline (nextLineOf content2 toPos2) &&
      decide (0 < (jsTrim (fullLineOf content2 fro2 toPos2)).length)) = a1
    generalize (testDashUnderline (nextLineOf content2 toPos2) &&
      decide (0 < (jsTrim (fullLineOf content2 fro2 toPos2)).length) &&
      !((fullLineOf content2 fro2 toPos2).head? == some '>')) = a2
    generalize (pQuote (fullLineOf content2 fro2 toPos2)).isSome = q
    generalize (pBullet (fullLineOf content2 fro2 toPos2)).isSome = b
    generalize (pOrdered (fullLineOf content2 fro2 toPos2)).isSome = o
    generalize (pTask (fullLineOf content2 fro2 toPos2)).isSome = tk
    generalize decide (0 < (jsTrim (fullLineOf content2 fro2 toPos2)).length) = nb
    revert t1 t2 t3 t4 t5 t6 a1 a2 q b o tk nb
    decide

/-- C4 counterexample to the original claim: on the buffer consisting of
the line "- a" followed by a setext underline line "=", with the first
line selected, the current line is non-blank yet `detectActiveStyles`
reports two line styles at once (list and h1 via the setext underline). -/
theorem detect_line_style_count_counterexample :
    0 < (jsTrim (fullLineOf ("- a\n=".toList) 0 3)).length ∧
    lineStyleCount (detectActiveStyles ("- a\n=".toList) ("- a".toList) 0 3) = 2 := by
  decide

theorem detect_line_style_count_witness :
    (0 < (jsTrim (fullLineOf ("ab".toList) 0 2)).length ∧
     testEqUnderline (nextLineOf ("ab".toList) 2) = false ∧
     testDashUnderline (nextLineOf ("ab".toList) 2) = false) ∧
    (lineStyleCount (detectActiveStyles ("ab".toList) ("ab".toList) 0 2) = 1 ∧
     ∀ (content2 text2 : List Char) (fro2 toPos2 : Nat),
       headParaCount (detectActiveStyles content2 text2 fro2 toPos2) ≤ 1) :=
  ⟨⟨by decide, by decide, by decide⟩,
   detect_line_style_count ("ab".toList) ("ab".toList) 0 2 (by decide) (by decide)
     (by decide)⟩
